import Mathlib

/-!
Shallow embedding of `scripts/update.py` (discussion-guide discovery and
extraction pipeline), together with proofs about the claims of its
specification.

Modelling conventions:
* Python strings are modelled as `String` / `List Char`; the regular
  expressions of the source are compiled by hand into deterministic
  character scanners that reproduce the engine's leftmost, non-overlapping
  scan (with greedy/lazy quantifier behaviour made explicit at each use).
* `datetime.date` is modelled by the `Date` structure below, ordered
  lexicographically on (year, month, day); the constructor's validity check
  is `isValidDate`.
* DOM documents (BeautifulSoup) are modelled as flat sequences of sibling
  elements, each carrying its tag name and its text content rendered as
  `get_text("\n", strip := True)` (whitespace-stripped fragments joined by
  newlines); `get_text(" ", strip := True)` of the same node is recovered by
  replacing newlines with spaces.
* Line splitting (`str.splitlines` / `str.split("\n")`) is modelled as
  splitting on the newline character.
* Network fetching is out of scope: each discovery function takes the
  anchors of the already-fetched page as input, and `urljoin` is passed in
  as an abstract function.
-/

set_option maxHeartbeats 1000000
set_option maxRecDepth 8000

namespace GuideUpdate

/-! ### Character helpers (Python `\s`, `\w`, lowercasing) -/

/-- Python `\s` on the texts handled here: ASCII whitespace plus NBSP. -/
def isSpaceChar (c : Char) : Bool :=
  c = ' ' || c = '\t' || c = '\n' || c = '\r' || c = '\x0b' || c = '\x0c' || c = ' '

/-- Python `\w` (word character) restricted to ASCII, as used by `\b`. -/
def isWordChar (c : Char) : Bool :=
  c.isAlphanum || c = '_'

/-- Case folding as used by `re.IGNORECASE` / `str.lower` on ASCII text. -/
def charLower (c : Char) : Char := c.toLower

/-- Case-insensitive literal prefix match: the pattern is stored lowercase;
returns the remaining input on success. -/
def matchCI : List Char → List Char → Option (List Char)
  | [], cs => some cs
  | _ :: _, [] => none
  | p :: ps, c :: cs => if charLower c = p then matchCI ps cs else none

/-- `needle in haystack` (Python substring containment) on char lists,
case-folded; used where the source lowercases the haystack first. -/
def containsSub (needle : List Char) : List Char → Bool
  | [] => (matchCI needle []).isSome
  | c :: cs => (matchCI needle (c :: cs)).isSome || containsSub needle cs

/-- `needle in haystack` (Python substring containment) on char lists,
case-sensitive, as Python's `in` is. -/
def containsSubCS (needle : List Char) : List Char → Bool
  | [] => needle.isEmpty
  | c :: cs => needle.isPrefixOf (c :: cs) || containsSubCS needle cs

def lowerList (l : List Char) : List Char := l.map charLower

/-! ### `_norm` : whitespace normalisation (`re.sub(r"\s+", " ", s).strip()`
after replacing NBSP with a space) -/

def fixNbsp (c : Char) : Char := if c = ' ' then ' ' else c

/-- Replace every maximal whitespace run by a single space
(the effect of `_WS.sub(" ", s)`). -/
def collapseWS : List Char → List Char
  | [] => []
  | c :: cs =>
    let r := collapseWS cs
    if isSpaceChar c then
      match r with
      | ' ' :: _ => r
      | _ => ' ' :: r
    else c :: r

/-- Python `str.strip()`. -/
def stripList (l : List Char) : List Char :=
  ((l.dropWhile isSpaceChar).reverse.dropWhile isSpaceChar).reverse

/-- `_norm` from the source, on char lists. -/
def normChars (l : List Char) : List Char :=
  stripList (collapseWS (l.map fixNbsp))

/-- `_norm` from the source. -/
def _norm (s : String) : String := ⟨normChars s.data⟩

/-- Python `str.split("\n")`. -/
def splitOnNl : List Char → List (List Char)
  | [] => [[]]
  | c :: cs =>
    if c = '\n' then [] :: splitOnNl cs
    else
      match splitOnNl cs with
      | l :: ls => (c :: l) :: ls
      | [] => [[c]]

/-- `"\n".join(...)`. -/
def joinNl (ls : List (List Char)) : List Char := List.intercalate ['\n'] ls

/-! ### Dates (`datetime.date`) -/

/-- Model of `datetime.date` values (validity is checked separately by
`isValidDate`, mirroring the constructor's `ValueError`). -/
structure Date where
  year : Nat
  month : Nat
  day : Nat
deriving DecidableEq, Repr

/-- `datetime.date` comparison `<=` : lexicographic on (year, month, day). -/
def dateLe (a b : Date) : Prop :=
  a.year < b.year ∨ (a.year = b.year ∧
    (a.month < b.month ∨ (a.month = b.month ∧ a.day ≤ b.day)))

/-- `datetime.date` strict comparison `<`. -/
def dateLt (a b : Date) : Prop :=
  a.year < b.year ∨ (a.year = b.year ∧
    (a.month < b.month ∨ (a.month = b.month ∧ a.day < b.day)))

instance : DecidableRel dateLe := fun a b => by unfold dateLe; exact inferInstance

instance : DecidableRel dateLt := fun a b => by unfold dateLt; exact inferInstance

instance : IsTotal Date dateLe :=
  ⟨fun a b => by unfold dateLe; omega⟩

instance : IsTrans Date dateLe :=
  ⟨fun a b c => by unfold dateLe; omega⟩

instance : IsRefl Date dateLe :=
  ⟨fun a => by unfold dateLe; omega⟩

def isLeapYear (y : Nat) : Bool :=
  y % 4 = 0 && (y % 100 ≠ 0 || y % 400 = 0)

def daysInMonth (y m : Nat) : Nat :=
  if m = 2 then (if isLeapYear y then 29 else 28)
  else if m = 4 || m = 6 || m = 9 || m = 11 then 30
  else 31

/-- Whether `datetime.date(y, m, d)` succeeds (no `ValueError`). -/
def isValidDate (y m d : Nat) : Bool :=
  1 ≤ y && y ≤ 9999 && 1 ≤ m && m ≤ 12 && 1 ≤ d && d ≤ daysInMonth y m

/-! ### The month-name date pattern `MONTH_NAME_PAT`

`\b(?P<month>Jan(?:uary)?|...|Dec(?:ember)?)\.?\s+(?P<day>\d{1,2})\b`,
case-insensitive.  The scanner below reproduces `finditer`: positions are
tried left to right; at a position the month alternatives are tried in the
pattern's order (within one alternative the optional group is tried
present-first); `\.?` consumes a dot when present; `\s+` then consumes the
maximal whitespace run (the day digit that must follow is not whitespace, so
maximal munch is exact); the day takes two digits when the following
character admits a `\b` boundary, else one digit, else the candidate fails.
Scanning resumes after the matched day. -/

/-- The month spellings in the alternation order tried by the regex engine,
paired for reference with nothing: the raw matched spelling is returned so
that the `MONTHS` lookup happens in `_extract_dates_from_text` exactly as in
the source. -/
def monthCandidates : List (List Char) :=
  [ "january".data, "jan".data,
    "february".data, "feb".data,
    "march".data, "mar".data,
    "april".data, "apr".data,
    "may".data,
    "june".data, "jun".data,
    "july".data, "jul".data,
    "august".data, "aug".data,
    "sept".data, "september".data, "sep".data,
    "october".data, "oct".data,
    "november".data, "nov".data,
    "december".data, "dec".data ]

/-- The `MONTHS` table. -/
def monthsLookup (s : List Char) : Option Nat :=
  if s = "jan".data || s = "january".data then some 1
  else if s = "feb".data || s = "february".data then some 2
  else if s = "mar".data || s = "march".data then some 3
  else if s = "apr".data || s = "april".data then some 4
  else if s = "may".data then some 5
  else if s = "jun".data || s = "june".data then some 6
  else if s = "jul".data || s = "july".data then some 7
  else if s = "aug".data || s = "august".data then some 8
  else if s = "sep".data || s = "sept".data || s = "september".data then some 9
  else if s = "oct".data || s = "october".data then some 10
  else if s = "nov".data || s = "november".data then some 11
  else if s = "dec".data || s = "december".data then some 12
  else none

/-- `\d{1,2}\b` at the head of the input (greedy, with the trailing word
boundary): returns the day value and the rest. -/
def matchDayB : List Char → Option (Nat × List Char)
  | [] => none
  | c :: cs =>
    if c.isDigit then
      match cs with
      | d :: cs2 =>
        if d.isDigit then
          match cs2 with
          | e :: _ =>
            if isWordChar e then
              none
            else some ((c.toNat - 48) * 10 + (d.toNat - 48), cs2)
          | [] => some ((c.toNat - 48) * 10 + (d.toNat - 48), cs2)
        else if isWordChar d then none
        else some (c.toNat - 48, cs)
      | [] => some (c.toNat - 48, cs)
    else none

/-- After a month spelling: `\.?\s+` then the day.  (If a dot is present but
no whitespace follows it, the dot-less branch also fails since a dot is not
whitespace, so consuming the dot when present is exact.) -/
def matchMonthSuffix (cs : List Char) : Option (Nat × List Char) :=
  let cs1 := match cs with
    | '.' :: r => r
    | _ => cs
  match cs1 with
  | c :: _ =>
    if isSpaceChar c then matchDayB (cs1.dropWhile isSpaceChar) else none
  | [] => none

/-- Try the month alternatives, in order, at this position. -/
def tryMonthCands : List (List Char) → List Char → Option (List Char × Nat × List Char)
  | [], _ => none
  | cand :: rest, cs =>
    match matchCI cand cs with
    | some afterMonth =>
      match matchMonthSuffix afterMonth with
      | some (day, afterDay) => some (cand, day, afterDay)
      | none => tryMonthCands rest cs
    | none => tryMonthCands rest cs

/-- One `finditer` step attempt for `MONTH_NAME_PAT` at the current
position.  `prevW` records whether the previous character is a word
character (the `\b` before the month). -/
def tryMonthAt (cs : List Char) (prevW : Bool) : Option (List Char × Nat × List Char) :=
  if prevW then none else tryMonthCands monthCandidates cs

/-- `MONTH_NAME_PAT.finditer`: all (month-spelling, day) matches in order.
`fuel` only bounds the recursion; callers pass the input length (each step
consumes at least one character). -/
def monthScan : Nat → List Char → Bool → List (List Char × Nat)
  | 0, _, _ => []
  | _ + 1, [], _ => []
  | fuel + 1, c :: cs, prevW =>
    match tryMonthAt (c :: cs) prevW with
    | some (cand, day, rest) => (cand, day) :: monthScan fuel rest true
    | none => monthScan fuel cs (isWordChar c)

/-! ### The numeric date pattern `NUMERIC_DATE_PAT`
`\b(?P<m>\d{1,2})[\/\.\-](?P<d>\d{1,2})\b` -/

def isDateSep (c : Char) : Bool := c = '/' || c = '.' || c = '-'

/-- A numeric-date match attempt at the current position.  The greedy
two-digit month backtracks to one digit only when the separator could
follow, which the digit in second position never is, so the split is
determined by whether the second character is a digit. -/
def tryNumAt : List Char → Option (Nat × Nat × List Char)
  | [] => none
  | c :: cs =>
    if c.isDigit then
      match cs with
      | d :: cs2 =>
        if d.isDigit then
          match cs2 with
          | s :: cs3 =>
            if isDateSep s then
              match matchDayB cs3 with
              | some (day, rest) => some ((c.toNat - 48) * 10 + (d.toNat - 48), day, rest)
              | none => none
            else none
          | [] => none
        else if isDateSep d then
          match matchDayB cs2 with
          | some (day, rest) => some (c.toNat - 48, day, rest)
          | none => none
        else none
      | [] => none
    else none

/-- `NUMERIC_DATE_PAT.finditer`: all (month, day) matches in order. -/
def numScan : Nat → List Char → Bool → List (Nat × Nat)
  | 0, _, _ => []
  | _ + 1, [], _ => []
  | fuel + 1, c :: cs, prevW =>
    match (if prevW then none else tryNumAt (c :: cs)) with
    | some (m, d, rest) => (m, d) :: numScan fuel rest true
    | none => numScan fuel cs (isWordChar c)

/-! ### `_extract_dates_from_text` -/

/-- `_extract_dates_from_text` on a char list: month-name matches first,
then numeric matches, each guarded exactly as in the source (`mon` lookup,
range checks, and the `datetime.date` constructor's validity check whose
`ValueError` is swallowed). -/
def extractDatesL (text : List Char) (year_hint : Nat) : List Date :=
  (monthScan text.length text false).filterMap (fun md =>
    match monthsLookup (lowerList md.1) with
    | some mon =>
      if 1 ≤ md.2 && md.2 ≤ 31 then
        if isValidDate year_hint mon md.2 then some ⟨year_hint, mon, md.2⟩ else none
      else none
    | none => none)
  ++ (numScan text.length text false).filterMap (fun md =>
    if 1 ≤ md.1 && md.1 ≤ 12 && 1 ≤ md.2 && md.2 ≤ 31 then
      if isValidDate year_hint md.1 md.2 then some ⟨year_hint, md.1, md.2⟩ else none
    else none)

/-- `_extract_dates_from_text` from the source. -/
def _extract_dates_from_text (text : String) (year_hint : Nat) : List Date :=
  extractDatesL text.data year_hint

/-! ### The per-anchor resolution policy
`ds_unique = sorted(set(ds)); candidates = [d for d in ds_unique if d <= today];
dt_choice = candidates[-1] if candidates else ds_unique[-1]` -/

/-- `sorted(set(ds))`. -/
def ds_unique (ds : List Date) : List Date :=
  List.insertionSort dateLe ds.dedup

/-- The date-resolution snippet shared by all three discovery stages:
latest candidate `<= today`, else the latest candidate overall
(`none` only when `ds` is empty, a case the callers skip). -/
def resolveCandidateDate (ds : List Date) (today : Date) : Option Date :=
  let dsu := ds_unique ds
  let candidates := dsu.filter (fun d => decide (dateLe d today))
  match candidates.getLast? with
  | some d => some d
  | none => dsu.getLast?

/-! ### Discovery stages

Each stage receives the anchors of the already-fetched page.  An anchor
carries `text` (its `get_text(strip=True)` rendering), `ctx` (the output of
`_collect_nearby_text` for guide anchors, resp. the parent's
`get_text(" ", strip=True)` for message links), and its `href` attribute.
`join` abstracts `requests.compat.urljoin(<page url>, ·)`. -/

structure Anchor where
  text : String
  ctx : String
  href : Option String
deriving DecidableEq, Repr

/-- `"discussion guide" in a.get_text(strip=True).lower()`. -/
def isDiscussionGuideAnchor (a : Anchor) : Bool :=
  containsSub "discussion guide".data (lowerList a.text.data)

/-- The guide collection loop shared by stage 1 and stage 3: every
"discussion guide" anchor with at least one extractable context date and an
`href` contributes its per-anchor resolved date and absolute URL. -/
def collectDatedGuides (anchors : List Anchor) (today : Date)
    (join : String → String) : List (Date × String) :=
  anchors.filterMap (fun a =>
    if isDiscussionGuideAnchor a then
      match resolveCandidateDate (_extract_dates_from_text a.ctx today.year) today with
      | some dt =>
        match a.href with
        | some h => some (dt, join h)
        | none => none
      | none => none
    else none)

/-- One comparison step of Python `max(xs, key=lambda x: x[0])`: the
running maximum is replaced only on a strictly greater key, so the first
maximum wins. -/
def pyMaxStep (acc : Option (Date × String)) (g : Date × String) :
    Option (Date × String) :=
  match acc with
  | none => some g
  | some m => if decide (dateLt m.1 g.1) then some g else some m

/-- Python `max(xs, key=lambda x: x[0])` on date-keyed pairs
(`none` on an empty list, where Python would use the `default`). -/
def pyMaxByDate (l : List (Date × String)) : Option (Date × String) :=
  l.foldl pyMaxStep none

/-- Guide-list ordering used by `guides.sort(key=lambda x: x[0])`
(stable sort by the date component). -/
def guideLe (a b : Date × String) : Prop := dateLe a.1 b.1

instance : DecidableRel guideLe := fun a b => by unfold guideLe; exact inferInstance

instance : IsTotal (Date × String) guideLe :=
  ⟨fun a b => IsTotal.total (r := dateLe) a.1 b.1⟩

instance : IsTrans (Date × String) guideLe :=
  ⟨fun a b c h1 h2 => IsTrans.trans (r := dateLe) a.1 b.1 c.1 h1 h2⟩

/-- Stage 1, `_first_discussion_link_on_messages_page`: sort the dated
guides, prefer the last one dated `<= today`, else the last overall. -/
def _first_discussion_link_on_messages_page (anchors : List Anchor)
    (today : Date) (join : String → String) : Option String :=
  let guides := collectDatedGuides anchors today join
  if guides.isEmpty then none
  else
    let sorted := List.insertionSort guideLe guides
    let filtered := sorted.filter (fun g => decide (dateLe g.1 today))
    match filtered.getLast? with
    | some g => some g.2
    | none => (sorted.getLast?).map (·.2)

/-- Stage 2 candidate collection in `_find_message_page_for_today`:
`/message/` links whose context yields at least one date, each resolved by
the shared policy. -/
def collectMessageCandidates (anchors : List Anchor) (today : Date)
    (join : String → String) : List (Date × String) :=
  anchors.filterMap (fun a =>
    match a.href with
    | some h =>
      if containsSubCS "/message/".data h.data then
        match resolveCandidateDate (_extract_dates_from_text a.ctx today.year) today with
        | some dt => some (dt, join h)
        | none => none
      else none
    | none => none)

/-- Stage 2, `_find_message_page_for_today`: among the dated `/message/`
links, open the one with the latest resolved date `<= today`, else the
latest overall. -/
def _find_message_page_for_today (anchors : List Anchor) (today : Date)
    (join : String → String) : Option String :=
  let candidates := collectMessageCandidates anchors today join
  if candidates.isEmpty then none
  else
    let sorted := List.insertionSort guideLe candidates
    let filtered := sorted.filter (fun c => decide (dateLe c.1 today))
    match filtered.getLast? with
    | some c => some c.2
    | none => (sorted.getLast?).map (·.2)

/-- Stage 3 selection in `find_today_discussion_pdf_or_page`: after sorting
by date, an exact match for today wins (first such), else the Python `max`
of the guides dated `<= today`, defaulting to the last (latest) guide. -/
def stage3ChooseGuide (guides : List (Date × String)) (today : Date) :
    Option (Date × String) :=
  if guides.isEmpty then none
  else
    let sorted := List.insertionSort guideLe guides
    let exact := sorted.filter (fun g => g.1 = today)
    match exact with
    | g :: _ => some g
    | [] =>
      match pyMaxByDate (sorted.filter (fun g => decide (dateLe g.1 today))) with
      | some g => some g
      | none => sorted.getLast?

/-- The stage-3 body of `find_today_discussion_pdf_or_page` (the
series-resources fallback): collect the dated "discussion guide" anchors of
the resources page and choose by the exact / latest-past / latest rule. -/
def find_today_discussion_stage3 (anchors : List Anchor) (today : Date)
    (join : String → String) : Option (Date × String) :=
  stage3ChooseGuide (collectDatedGuides anchors today join) today

/-! ### Parsed output record -/

structure Sec where
  title : String
  body : String
deriving DecidableEq, Repr

structure ParsedGuide where
  questions : List String
  sections : List Sec
deriving DecidableEq, Repr

/-! ### Text patterns of the content parsers -/

/-- One position of the search for `reflect\s*\+\s*discuss` (case
insensitive; the characters after each greedy `\s*` are not whitespace, so
maximal munch is exact). -/
def matchReflectAt (cs : List Char) : Bool :=
  match matchCI "reflect".data cs with
  | some r1 =>
    match r1.dropWhile isSpaceChar with
    | '+' :: r2 => (matchCI "discuss".data (r2.dropWhile isSpaceChar)).isSome
    | _ => false
  | none => false

/-- `re.search(r"reflect\s*\+\s*discuss", ., re.I)`. -/
def reflectSearch : List Char → Bool
  | [] => false
  | c :: cs => matchReflectAt (c :: cs) || reflectSearch cs

/-- `memorization\s*challenge\b` at the current position (the leading `\b`
is handled by the scanner). -/
def matchMemAt (cs : List Char) : Bool :=
  match matchCI "memorization".data cs with
  | some r1 =>
    match matchCI "challenge".data (r1.dropWhile isSpaceChar) with
    | some [] => true
    | some (c :: _) => !isWordChar c
    | none => false
  | none => false

def memSearchAux : List Char → Bool → Bool
  | [], _ => false
  | c :: cs, prevW =>
    ((!prevW) && matchMemAt (c :: cs)) || memSearchAux cs (isWordChar c)

/-- `re.search(r"\bmemorization\s*challenge\b", ., re.I)`. -/
def memSearch (cs : List Char) : Bool := memSearchAux cs false

/-- `re.search(r"^\s*pray\s*$", ., re.I)`: without `re.M` this requires the
whole string to be whitespace around "pray" (the trailing `\s*` also covers
the newline that `$` may precede). -/
def prayFull (cs : List Char) : Bool :=
  match matchCI "pray".data (cs.dropWhile isSpaceChar) with
  | some r => r.all isSpaceChar
  | none => false

/-- `re.search(r"^\s*next\s*steps\s*$", ., re.I)`. -/
def nextStepsFull (cs : List Char) : Bool :=
  match matchCI "next".data (cs.dropWhile isSpaceChar) with
  | some r1 =>
    match matchCI "steps".data (r1.dropWhile isSpaceChar) with
    | some r2 => r2.all isSpaceChar
    | none => false
  | none => false

/-- One position of `re.search(r"(read\s+|what|how|why|where|when)", q, re.I)`. -/
def matchQKeyAt (cs : List Char) : Bool :=
  (match matchCI "read".data cs with
   | some (c :: _) => isSpaceChar c
   | _ => false) ||
  (matchCI "what".data cs).isSome || (matchCI "how".data cs).isSome ||
  (matchCI "why".data cs).isSome || (matchCI "where".data cs).isSome ||
  (matchCI "when".data cs).isSome

def qKeySearch : List Char → Bool
  | [] => false
  | c :: cs => matchQKeyAt (c :: cs) || qKeySearch cs

/-- The HTML question filter:
`q.endswith("?") or re.search(r"(read\s+|what|how|why|where|when)", q, re.I)`. -/
def htmlQuestionFilter (q : List Char) : Bool :=
  (q.getLast? == some '?') || qKeySearch q

/-- The keyword alternatives of the PDF question filter. -/
def pdfKeywords : List (List Char) :=
  ["read".data, "what".data, "how".data, "why".data, "where".data,
   "when".data, "discuss".data, "based on".data]

def matchKeywordBAt (cs : List Char) : Bool :=
  pdfKeywords.any (fun w =>
    match matchCI w cs with
    | some [] => true
    | some (c :: _) => !isWordChar c
    | none => false)

def pdfKeySearchAux : List Char → Bool → Bool
  | [], _ => false
  | c :: cs, prevW =>
    ((!prevW) && matchKeywordBAt (c :: cs)) || pdfKeySearchAux cs (isWordChar c)

/-- The PDF question filter: `q.endswith("?") or
re.search(r"\b(read|what|how|why|where|when|discuss|based on)\b", q, re.I)`. -/
def pdfQuestionFilter (q : List Char) : Bool :=
  (q.getLast? == some '?') || pdfKeySearchAux q false

/-! ### The bullet patterns -/

/-- The character class of `_BULLET = re.compile(r"^\s*[–—-•]\s+")`.  Inside
the class the unescaped hyphen between the em dash (U+2014) and the bullet
(U+2022) forms a *range*, so the class is {U+2013} ∪ [U+2014, U+2022]: the
ASCII hyphen is not in it, while the curly quotes U+2018 – U+201F are. -/
def isHtmlBulletChar (c : Char) : Bool :=
  c = '–' || ('—' ≤ c && c ≤ '•')

/-- `_BULLET.match(line)`. -/
def _BULLET_match (l : List Char) : Bool :=
  match l.dropWhile isSpaceChar with
  | c :: d :: _ => isHtmlBulletChar c && isSpaceChar d
  | _ => false

/-- `_BULLET.sub("", line)` (the pattern is anchored, so at most the prefix
is removed; `\s+` is greedy and nothing follows it in the pattern). -/
def _BULLET_sub (l : List Char) : List Char :=
  match l.dropWhile isSpaceChar with
  | c :: d :: rest =>
    if isHtmlBulletChar c && isSpaceChar d then (d :: rest).dropWhile isSpaceChar else l
  | _ => l

/-- The character class of the PDF parser's `BULLET_RE`, written in the
source as `[––•\-]`: the en dash (twice over), the bullet, and the
escaped ASCII hyphen. -/
def isPdfBulletChar (c : Char) : Bool :=
  c = '–' || c = '•' || c = '-'

/-- `BULLET_RE.match(t)`. -/
def BULLET_RE_match (l : List Char) : Bool :=
  match l.dropWhile isSpaceChar with
  | c :: d :: _ => isPdfBulletChar c && isSpaceChar d
  | _ => false

/-- `BULLET_RE.sub("", t)`. -/
def BULLET_RE_sub (l : List Char) : List Char :=
  match l.dropWhile isSpaceChar with
  | c :: d :: rest =>
    if isPdfBulletChar c && isSpaceChar d then (d :: rest).dropWhile isSpaceChar else l
  | _ => l

/-! ### Bullet-run merging -/

/-- Python truthiness of the `buf` variable (`None` and `""` are falsy). -/
def truthy : Option (List Char) → Bool
  | none => false
  | some b => !b.isEmpty

/-- The bullet-run merge loop of `parse_html_guide` (lines split, stripped,
empty lines skipped; a `_BULLET` line flushes `buf` and starts a new item;
other lines are space-joined onto a truthy `buf`). -/
def htmlMergeAux : Option (List Char) → List (List Char) → List (List Char)
  | buf, [] => if truthy buf then [stripList (buf.getD [])] else []
  | buf, raw :: rest =>
    let line := stripList raw
    if line.isEmpty then htmlMergeAux buf rest
    else if _BULLET_match line then
      (if truthy buf then [stripList (buf.getD [])] else []) ++
        htmlMergeAux (some (_BULLET_sub line)) rest
    else if truthy buf then htmlMergeAux (some (buf.getD [] ++ ' ' :: line)) rest
    else htmlMergeAux buf rest

/-- The bullet-run merge loop of `parse_pdf_guide` (continuations are
re-stripped: `buf = (buf + " " + t).strip()`; a stray line before the first
bullet is ignored). -/
def pdfMergeAux : Option (List Char) → List (List Char) → List (List Char)
  | buf, [] => if truthy buf then [stripList (buf.getD [])] else []
  | buf, raw :: rest =>
    let t := stripList raw
    if t.isEmpty then pdfMergeAux buf rest
    else if BULLET_RE_match t then
      (if truthy buf then [stripList (buf.getD [])] else []) ++
        pdfMergeAux (some (BULLET_RE_sub t)) rest
    else if truthy buf then pdfMergeAux (some (stripList (buf.getD [] ++ ' ' :: t))) rest
    else pdfMergeAux buf rest

/-! ### The HTML parser -/

/-- A document element: its (lowercase) tag name and its text content as
rendered by `get_text("\n", strip=True)` (whitespace-stripped text
fragments joined by newlines).  Documents are modelled as the flat sequence
of sibling elements the segmentation algorithm walks. -/
structure El where
  tag : String
  text : String
deriving DecidableEq, Repr

/-- `get_text(" ", strip=True)` of the same element. -/
def getTextSpace (e : El) : List Char :=
  e.text.data.map (fun c => if c = '\n' then ' ' else c)

/-- The heading selector `soup.select("h1,h2,h3,h4,h5,h6,strong,b")`. -/
def isHeadingSelTag (t : String) : Bool :=
  t = "h1" || t = "h2" || t = "h3" || t = "h4" || t = "h5" || t = "h6" ||
  t = "strong" || t = "b"

/-- `_is_heading_tag`: `re.match(r"^h[1-6]$", name, re.I)`. -/
def _is_heading_tag (t : String) : Bool :=
  let l := t.data.map charLower
  l = "h1".data || l = "h2".data || l = "h3".data || l = "h4".data ||
    l = "h5".data || l = "h6".data

/-- `_collect_until_next_heading`, applied to the sibling elements that
follow the heading: their texts up to the next `h1`–`h6` element, each
whitespace-normalised, non-empty ones joined by newlines. -/
def _collect_until_next_heading (rest : List El) : List Char :=
  let parts := (rest.takeWhile (fun e => !_is_heading_tag e.tag)).map (fun e => e.text.data)
  stripList (joinNl ((parts.map normChars).filter (fun p => !p.isEmpty)))

/-- The `grab(title_re)` helper of `parse_html_guide`: the first selected
heading matching the pattern; its normalised text is the title, the
following block the body; `None` when the body normalises to empty. -/
def grabHtml (pat : List Char → Bool) : List El → Option Sec
  | [] => none
  | e :: rest =>
    if isHeadingSelTag e.tag && pat (getTextSpace e) then
      let title := normChars (getTextSpace e)
      let body := normChars (_collect_until_next_heading rest)
      if body.isEmpty then none else some ⟨⟨title⟩, ⟨body⟩⟩
    else grabHtml pat rest

/-- The elements following the first "Reflect + Discuss" heading, when one
exists. -/
def findReflectRest : List El → Option (List El)
  | [] => none
  | e :: rest =>
    if isHeadingSelTag e.tag && reflectSearch (getTextSpace e) then some rest
    else findReflectRest rest

/-- The working block of `parse_html_guide`: the collected text after the
"Reflect + Discuss" heading, or the whole page text
(`soup.get_text("\n", strip=True)`) in degraded mode. -/
def htmlBlock (doc : List El) : List Char :=
  match findReflectRest doc with
  | some rest => _collect_until_next_heading rest
  | none => joinNl ((doc.map (fun e => e.text.data)).filter (fun t => !t.isEmpty))

/-- The merged bullet items of the HTML working block. -/
def htmlItems (doc : List El) : List (List Char) :=
  htmlMergeAux none (splitOnNl (htmlBlock doc))

/-- `parse_html_guide`. -/
def parse_html_guide (doc : List El) : ParsedGuide :=
  let qs := (htmlItems doc).filter htmlQuestionFilter
  let sections := [grabHtml memSearch doc, grabHtml prayFull doc,
                   grabHtml nextStepsFull doc].reduceOption
  ⟨qs.map (fun l => (⟨l⟩ : String)), sections⟩

/-! ### `_normalize_pdf_text` -/

/-- The `\s*\n\s*` chunk of the dehyphenation pattern: the maximal
whitespace run, which must contain a newline (the following `(\w)` is not
whitespace, so maximal munch is exact); returns the input after the run. -/
def wsRunWithNl (cs : List Char) : Option (List Char) :=
  if (cs.takeWhile isSpaceChar).contains '\n' then some (cs.dropWhile isSpaceChar)
  else none

/-- `re.sub(r"(\w)-\s*\n\s*(\w)", r"\1\2", raw)`: scanning is
non-overlapping, so the second word character of a match is consumed and
not reconsidered.  `fuel` only bounds the recursion (callers pass the
length; every step consumes at least one character). -/
def hyphenJoinAux : Nat → List Char → List Char
  | 0, cs => cs
  | _ + 1, [] => []
  | fuel + 1, c :: cs =>
    if isWordChar c then
      match cs with
      | '-' :: r2 =>
        match wsRunWithNl r2 with
        | some (d :: r4) =>
          if isWordChar d then c :: d :: hyphenJoinAux fuel r4
          else c :: hyphenJoinAux fuel cs
        | _ => c :: hyphenJoinAux fuel cs
      | _ => c :: hyphenJoinAux fuel cs
    else c :: hyphenJoinAux fuel cs

/-- `raw.replace("\r\n", "\n")`. -/
def replaceCrLf : List Char → List Char
  | [] => []
  | '\r' :: '\n' :: rest => '\n' :: replaceCrLf rest
  | c :: rest => c :: replaceCrLf rest

/-- `re.search(r"[a-z0-9)\]]$", prev)` on a newline-free line: its last
character test. -/
def endsWrapChar (c : Char) : Bool :=
  ('a' ≤ c && c ≤ 'z') || c.isDigit || c = ')' || c = ']'

/-- `re.match(r"^[a-z]", ln)`. -/
def startsLowerChar (l : List Char) : Bool :=
  match l with
  | c :: _ => 'a' ≤ c && c ≤ 'z'
  | [] => false

/-- The soft-line-unwrap loop of `_normalize_pdf_text` (step 3), with the
already-emitted lines kept reversed in `acc`. -/
def joinWrapAux : List (List Char) → List (List Char) → List (List Char)
  | acc, [] => acc.reverse
  | [], ln :: rest => joinWrapAux [ln] rest
  | p :: acc, ln :: rest =>
    if (match p.getLast? with | some c => endsWrapChar c | none => false)
        && startsLowerChar ln then
      joinWrapAux ((p ++ ' ' :: stripList ln) :: acc) rest
    else joinWrapAux (ln :: p :: acc) rest

def joinWrap (lines : List (List Char)) : List (List Char) := joinWrapAux [] lines

/-- The bullet glyphs of normalisation steps 4 and 5's classes
(`[–\-•]` resp. `[•\-]`). -/
def isMidBulletChar (c : Char) : Bool := c = '–' || c = '-' || c = '•'

def isLineBulletChar (c : Char) : Bool := c = '•' || c = '-'

/-- `re.sub(r"(\?|:)\s*[–\-•]\s+", r"\1\n– ", raw)` (step 4). -/
def midBulletSubAux : Nat → List Char → List Char
  | 0, cs => cs
  | _ + 1, [] => []
  | fuel + 1, c :: cs =>
    if c = '?' || c = ':' then
      match cs.dropWhile isSpaceChar with
      | b :: (w :: _r2) =>
        if isMidBulletChar b && isSpaceChar w then
          c :: '\n' :: '–' :: ' ' :: midBulletSubAux fuel ((w :: _r2).dropWhile isSpaceChar)
        else c :: midBulletSubAux fuel cs
      | _ => c :: midBulletSubAux fuel cs
    else c :: midBulletSubAux fuel cs

/-- `re.sub(r"^[\s]*[•\-]\s+", "– ", raw, flags=re.M)` (step 5).  `atStart`
records whether the current position follows a newline (or is the string
start); with `re.M` a match may only begin there, and its leading `[\s]*`
may cross further newlines. -/
def lineBulletSubAux : Nat → List Char → Bool → List Char
  | 0, cs, _ => cs
  | _ + 1, [], _ => []
  | fuel + 1, c :: cs, atStart =>
    if atStart then
      match (c :: cs).dropWhile isSpaceChar with
      | b :: (w :: _r2) =>
        if isLineBulletChar b && isSpaceChar w then
          '–' :: ' ' :: lineBulletSubAux fuel ((w :: _r2).dropWhile isSpaceChar)
            (((w :: _r2).takeWhile isSpaceChar).getLast? == some '\n')
        else c :: lineBulletSubAux fuel cs (c = '\n')
      | _ => c :: lineBulletSubAux fuel cs (c = '\n')
    else c :: lineBulletSubAux fuel cs (c = '\n')

/-- `_normalize_pdf_text`. -/
def _normalize_pdf_text (raw : List Char) : List Char :=
  if raw.isEmpty then []
  else
    let r1 := hyphenJoinAux raw.length raw
    let r2 := replaceCrLf r1
    let r3 := joinNl (joinWrap (splitOnNl r2))
    let r4 := midBulletSubAux r3.length r3
    let r5 := lineBulletSubAux r4.length r4 true
    stripList r5

/-! ### The PDF parser -/

/-- One alternative of
`(memorization\s*challenge|pray|next\s*steps)\b` at the current position. -/
def sectionNameAt (cs : List Char) : Bool :=
  (match matchCI "memorization".data cs with
   | some r1 =>
     (match matchCI "challenge".data (r1.dropWhile isSpaceChar) with
      | some [] => true
      | some (c :: _) => !isWordChar c
      | none => false)
   | none => false) ||
  (match matchCI "pray".data cs with
   | some [] => true
   | some (c :: _) => !isWordChar c
   | none => false) ||
  (match matchCI "next".data cs with
   | some r1 =>
     (match matchCI "steps".data (r1.dropWhile isSpaceChar) with
      | some [] => true
      | some (c :: _) => !isWordChar c
      | none => false)
   | none => false)

/-- The lookahead `(?=\n\s*(memorization\s*challenge|pray|next\s*steps)\b|\Z)`. -/
def stopPos (cs : List Char) : Bool :=
  match cs with
  | [] => true
  | '\n' :: r => sectionNameAt (r.dropWhile isSpaceChar)
  | _ => false

/-- The lazy capture `(.+?)` up to the first position (after at least one
character) satisfying the lookahead; reaching the end always satisfies it. -/
def captureUntilStop : List Char → List Char
  | [] => []
  | c :: rs => if stopPos rs then [c] else c :: captureUntilStop rs

/-- The final `(.+?)(?=...)` step shared by the block and section
regexes: fails on an empty remainder, else captures lazily. -/
def captureFrom : List Char → Option (List Char)
  | [] => none
  | rest => some (captureUntilStop rest)

/-- `reflect\s*\+\s*discuss\s*(.+?)(?=...)` at the current position.  The
`\s*` after "discuss" is greedy, so on the end-stripped text the parsers
run on, the capture starts at a non-whitespace character or the position
fails (backtracking the `\s*` could only put trailing whitespace into the
capture, which stripping has removed). -/
def tryReflectBlockAt (cs : List Char) : Option (List Char) :=
  match matchCI "reflect".data cs with
  | some r1 =>
    match r1.dropWhile isSpaceChar with
    | '+' :: r2 =>
      match matchCI "discuss".data (r2.dropWhile isSpaceChar) with
      | some r3 => captureFrom (r3.dropWhile isSpaceChar)
      | none => none
    | _ => none
  | none => none

/-- The `re.search` for the "Reflect + Discuss" block of `parse_pdf_guide`. -/
def reflectBlockSearch : List Char → Option (List Char)
  | [] => none
  | c :: cs =>
    match tryReflectBlockAt (c :: cs) with
    | some b => some b
    | none => reflectBlockSearch cs

/-- The `:?\s*` tail after the section name's trailing `\s*` (the input is
already whitespace-dropped). -/
def afterColonWS (r2 : List Char) : List Char :=
  match r2 with
  | ':' :: rr => rr.dropWhile isSpaceChar
  | _ => r2

/-- `rf"\n\s*{name}\s*:?\s*(.+?)(?=...)"` at a position whose first
character is the literal newline. -/
def tryGrabSecAt (name : List Char) (cs : List Char) : Option (List Char) :=
  match cs with
  | '\n' :: r =>
    match matchCI name (r.dropWhile isSpaceChar) with
    | some r1 => captureFrom (afterColonWS (r1.dropWhile isSpaceChar))
    | none => none
  | _ => none

def grabSecSearch (name : List Char) : List Char → Option (List Char)
  | [] => none
  | c :: cs =>
    match tryGrabSecAt name (c :: cs) with
    | some b => some b
    | none => grabSecSearch name cs

/-- `re.sub(r"^\s*[––•\-]\s+", "", body)` of `grab_sec`. -/
def stripLeadingPdfBullet (body : List Char) : List Char :=
  match body.dropWhile isSpaceChar with
  | c :: d :: rest =>
    if isPdfBulletChar c && isSpaceChar d then (d :: rest).dropWhile isSpaceChar else body
  | _ => body

/-- Python `str.split()` (split on whitespace runs, no empties). -/
def splitWSAux : Nat → List Char → List (List Char)
  | 0, _ => []
  | _ + 1, [] => []
  | fuel + 1, c :: cs =>
    if isSpaceChar c then splitWSAux fuel cs
    else ((c :: cs).takeWhile (fun x => !isSpaceChar x)) ::
      splitWSAux fuel ((c :: cs).dropWhile (fun x => !isSpaceChar x))

/-- Python `str.capitalize()`. -/
def capitalizeWord (w : List Char) : List Char :=
  match w with
  | c :: rest => c.toUpper :: rest.map charLower
  | [] => []

/-- `" ".join(w.capitalize() for w in name.split())`. -/
def capitalizeName (name : List Char) : List Char :=
  List.intercalate [' '] ((splitWSAux name.length name).map capitalizeWord)

/-- `grab_sec(name)` of `parse_pdf_guide`, over the normalised text. -/
def grab_sec (name : List Char) (raw : List Char) : Option Sec :=
  match grabSecSearch name raw with
  | some captured =>
    some ⟨⟨capitalizeName name⟩, ⟨stripLeadingPdfBullet (normChars captured)⟩⟩
  | none => none

/-- The working block of `parse_pdf_guide`: the captured "Reflect +
Discuss" group, or the whole normalised text. -/
def pdfBlock (raw : List Char) : List Char :=
  match reflectBlockSearch raw with
  | some b => b
  | none => raw

/-- The merged bullet items of the PDF working block. -/
def pdfItems (raw : List Char) : List (List Char) :=
  pdfMergeAux none (splitOnNl (pdfBlock raw))

/-- The PDF parser's output (it also reports a title line). -/
structure PdfGuide where
  title : String
  questions : List String
  sections : List Sec
deriving DecidableEq, Repr

/-- `parse_pdf_guide`, as a function of the extracted PDF text
(`fetch_pdf_text` is out of scope). -/
def parse_pdf_guide (raw0 : String) : PdfGuide :=
  let raw := _normalize_pdf_text raw0.data
  let items := pdfItems raw
  let questions := (items.filter pdfQuestionFilter).map
    (fun q => (⟨stripList q⟩ : String))
  let sections := [grab_sec "memorization challenge".data raw,
                   grab_sec "pray".data raw,
                   grab_sec "next steps".data raw].reduceOption
  let first_line : String :=
    if raw.isEmpty then "Discussion Guide" else ⟨(splitOnNl raw).headD []⟩
  ⟨first_line, questions, sections⟩

/-! ### The orchestrator (`main`), parsing and escalation -/

/-- `href.lower().endswith(".pdf")`. -/
def isPdfHref (h : String) : Bool :=
  ".pdf".data.isSuffixOf (lowerList h.data)

/-- The PDF-link scan of `main`'s fallback: the first `a[href]` whose href
has a PDF suffix. -/
def firstPdfLink (hrefs : List String) : Option String :=
  hrefs.find? isPdfHref

/-- The record `write_json` writes. -/
structure Payload where
  url : String
  questions : List String
  sections : List Sec
deriving DecidableEq, Repr

def write_json (source_url : String) (questions : List String)
    (sections : List Sec) : Payload :=
  ⟨source_url, questions, sections⟩

/-- `main`'s parse-and-escalate step on an HTML document: when the HTML
parse yields no questions, the first PDF link of the fetched page (if any)
is parsed instead.  `pdfOracle` abstracts `parse_pdf_guide` applied to a
URL (it fetches); `join` abstracts `urljoin(source_url, ·)`; the second
component records the URLs the PDF parser was invoked on. -/
def mainHtmlEscalation (htmlData : ParsedGuide)
    (hrefs : List String) (pdfOracle : String → PdfGuide)
    (join : String → String) : (List String × List Sec) × List String :=
  if htmlData.questions.isEmpty then
    match firstPdfLink hrefs with
    | some h =>
      (((pdfOracle (join h)).questions, (pdfOracle (join h)).sections), [join h])
    | none => ((htmlData.questions, htmlData.sections), [])
  else ((htmlData.questions, htmlData.sections), [])

/-! ### Concrete pages used to instantiate the theorems -/

/-- The spec's stage-3 scenario: a series-resources page with two
"discussion guide" anchors dated Sept 14 and Sept 21. -/
def anchorsStage3Ex : List Anchor :=
  [⟨"Discussion Guide", "September 14", some "u14"⟩,
   ⟨"Discussion Guide", "September 21", some "u21"⟩]

def todayStage3Ex : Date := ⟨2024, 9, 21⟩

/-- A messages listing with a single dated `/message/` link (dated in the
past, not today). -/
def anchorsStage2Ex : List Anchor :=
  [⟨"Listen", "Sept 14", some "/message/a"⟩]

/-- The claim C4 block as a document, with the first bullet written as an
ASCII hyphen. -/
def docC4hyph : List El :=
  [⟨"h2", "Reflect + Discuss"⟩, ⟨"p", "- What is grace?"⟩,
   ⟨"p", "continued clause."⟩, ⟨"p", "– How does this apply?"⟩]

/-- The same document with the spec's en-dash bullet. -/
def docC4dash : List El :=
  [⟨"h2", "Reflect + Discuss"⟩, ⟨"p", "– What is grace?"⟩,
   ⟨"p", "continued clause."⟩, ⟨"p", "– How does this apply?"⟩]

/-- A second messages listing, for the amended stage-2 theorem's witness:
two dated message links, Sept 7 and Sept 14. -/
def anchorsStage2Wit : List Anchor :=
  [⟨"Listen", "September 7", some "/message/a7"⟩,
   ⟨"Listen", "September 14", some "/message/a14"⟩]

/-- A PDF-parse oracle producing no questions (for instantiating the
escalation theorem). -/
def pdfOracleEx : String → PdfGuide := fun _ => ⟨"Discussion Guide", [], []⟩

/-- An HTML parse result with no questions. -/
def htmlDataEx : ParsedGuide := ⟨[], []⟩

/-- A small HTML guide document with two dash-bulleted questions. -/
def docQEx : List El :=
  [⟨"h2", "Reflect + Discuss"⟩, ⟨"p", "– What is grace?"⟩,
   ⟨"p", "– How does this apply?"⟩, ⟨"h3", "Pray"⟩,
   ⟨"p", "Spend ten minutes."⟩]

/-- A small PDF guide text with one question. -/
def rawQEx : String :=
  "Reflect + Discuss\n– What does it mean?\nPray\nPray for one another"

/-- An HTML guide document carrying all three recognised sections. -/
def docSecEx : List El :=
  [⟨"h2", "Reflect + Discuss"⟩, ⟨"p", "– What is faith?"⟩,
   ⟨"h3", "Memorization Challenge"⟩, ⟨"p", "Hebrews 11:1"⟩,
   ⟨"h3", "Pray"⟩, ⟨"p", "Spend ten minutes."⟩,
   ⟨"h3", "Next Steps"⟩, ⟨"p", "Share with a friend."⟩]

/-- A PDF guide text carrying all three recognised sections. -/
def rawSecEx : String :=
  "Guide Title\nReflect + Discuss\n– What is faith?\nMemorization Challenge\nHebrews 11:1\nPray\nSpend ten minutes.\nNext Steps\nShare with a friend."

/-! ## Lemma infrastructure -/

instance : IsRefl (Date × String) guideLe :=
  ⟨fun a => IsRefl.refl (r := dateLe) a.1⟩

theorem dateLe_refl (a : Date) : dateLe a a := by unfold dateLe; omega

theorem dateLe_trans {a b c : Date} (h1 : dateLe a b) (h2 : dateLe b c) : dateLe a c := by
  unfold dateLe at *; omega

theorem dateLe_of_not_dateLt {a b : Date} (h : ¬ dateLt a b) : dateLe b a := by
  unfold dateLt at h; unfold dateLe; omega

theorem dateLe_of_dateLt {a b : Date} (h : dateLt a b) : dateLe a b := by
  unfold dateLt at h; unfold dateLe; omega

theorem getLast?_mem' {α : Type} {l : List α} {m : α} (h : l.getLast? = some m) : m ∈ l := by
  rcases List.mem_getLast?_eq_getLast (l := l) (x := m)
    (by simpa [Option.mem_def] using h) with ⟨hne, rfl⟩
  exact List.getLast_mem hne

/-- In a sorted list, every element is related to the last one. -/
theorem rel_getLast?_of_sorted {α : Type} {r : α → α → Prop} [IsRefl α r] :
    ∀ {l : List α} {m : α}, l.Sorted r → l.getLast? = some m → ∀ x ∈ l, r x m := by
  intro l
  induction l with
  | nil => intro m _ _ x hx; simp at hx
  | cons a t ih =>
    intro m hs hl x hx
    rcases List.sorted_cons.1 hs with ⟨ha, ht⟩
    rcases List.mem_cons.1 hx with rfl | hx
    · cases t with
      | nil =>
        simp at hl
        subst hl
        exact IsRefl.refl _
      | cons b t2 =>
        have hl2 : (b :: t2).getLast? = some m := by simpa using hl
        exact ha m (getLast?_mem' hl2)
    · cases t with
      | nil => simp at hx
      | cons b t2 =>
        have hl2 : (b :: t2).getLast? = some m := by simpa using hl
        exact ih ht hl2 x hx

theorem getLast?_of_ne_nil {α : Type} {l : List α} (h : l ≠ []) : ∃ m, l.getLast? = some m :=
  ⟨l.getLast h, List.getLast?_eq_getLast_of_ne_nil h⟩

/-- Membership transfer for `ds_unique`. -/
theorem mem_ds_unique {ds : List Date} {x : Date} : x ∈ ds_unique ds ↔ x ∈ ds := by
  unfold ds_unique
  rw [(List.perm_insertionSort dateLe ds.dedup).mem_iff, List.mem_dedup]

theorem sorted_ds_unique (ds : List Date) : (ds_unique ds).Sorted dateLe :=
  List.sorted_insertionSort dateLe ds.dedup

/-! ## Claim C1 -/

/-- Claim C1 (confirmed): for every non-empty list of candidate dates
extracted from an anchor's context and every reference date `today`, the
resolution snippet used by the discovery stages
(`candidates[-1] if candidates else ds_unique[-1]`) selects a candidate
that is the latest one `<= today` when any candidate is `<= today`, and
otherwise the latest candidate overall. -/
theorem resolveCandidateDate_latest (ds : List Date) (today : Date) (h : ds ≠ []) :
    ∃ m, resolveCandidateDate ds today = some m ∧ m ∈ ds ∧
      ((∃ d ∈ ds, dateLe d today) →
        dateLe m today ∧ ∀ d ∈ ds, dateLe d today → dateLe d m) ∧
      ((∀ d ∈ ds, ¬ dateLe d today) → ∀ d ∈ ds, dateLe d m) := by
  unfold resolveCandidateDate
  set dsu := ds_unique ds with hdsu
  set cands := dsu.filter (fun d => decide (dateLe d today)) with hcands
  have hsorted : dsu.Sorted dateLe := sorted_ds_unique ds
  have hsc : cands.Sorted dateLe := hsorted.filter _
  cases hc : cands.getLast? with
  | some m =>
    refine ⟨m, by simp [hc], ?_, ?_, ?_⟩
    · have : m ∈ cands := getLast?_mem' hc
      have := List.mem_of_mem_filter this
      exact mem_ds_unique.1 this
    · intro _
      have hmc : m ∈ cands := getLast?_mem' hc
      have hmle : dateLe m today := by
        have := List.of_mem_filter hmc
        simpa using this
      refine ⟨hmle, ?_⟩
      intro d hd hdle
      have hdc : d ∈ cands := by
        rw [hcands, List.mem_filter]
        exact ⟨mem_ds_unique.2 hd, by simpa using hdle⟩
      exact rel_getLast?_of_sorted hsc hc d hdc
    · intro hnone
      have hmc : m ∈ cands := getLast?_mem' hc
      have hmle : dateLe m today := by
        have := List.of_mem_filter hmc
        simpa using this
      have hmds : m ∈ ds := mem_ds_unique.1 (List.mem_of_mem_filter hmc)
      exact absurd hmle (hnone m hmds)
  | none =>
    have hne : dsu ≠ [] := by
      rcases List.exists_mem_of_ne_nil ds h with ⟨x, hx⟩
      intro hcon
      have hx2 : x ∈ ds_unique ds := mem_ds_unique.2 hx
      rw [← hdsu, hcon] at hx2
      simp at hx2
    rcases getLast?_of_ne_nil hne with ⟨m, hm⟩
    refine ⟨m, by simp [hc, hm], mem_ds_unique.1 (getLast?_mem' hm), ?_, ?_⟩
    · intro hex
      rcases hex with ⟨d, hd, hdle⟩
      have hdc : d ∈ cands := by
        rw [hcands, List.mem_filter]
        exact ⟨mem_ds_unique.2 hd, by simpa using hdle⟩
      have : cands ≠ [] := by
        intro hcon; rw [hcon] at hdc; simp at hdc
      rcases getLast?_of_ne_nil this with ⟨y, hy⟩
      rw [hy] at hc; cases hc
    · intro _ d hd
      exact rel_getLast?_of_sorted hsorted hm d (mem_ds_unique.2 hd)

/-- Witness for C1, the spec's own fallback example: candidates
{2024-09-14, 2024-09-21} with today = 2024-09-10 resolve to 2024-09-21. -/
theorem resolveCandidateDate_latest_witness :
    ∃ m, resolveCandidateDate [⟨2024, 9, 14⟩, ⟨2024, 9, 21⟩] ⟨2024, 9, 10⟩ = some m ∧
      m ∈ ([⟨2024, 9, 14⟩, ⟨2024, 9, 21⟩] : List Date) ∧
      ((∃ d ∈ ([⟨2024, 9, 14⟩, ⟨2024, 9, 21⟩] : List Date), dateLe d ⟨2024, 9, 10⟩) →
        dateLe m ⟨2024, 9, 10⟩ ∧
        ∀ d ∈ ([⟨2024, 9, 14⟩, ⟨2024, 9, 21⟩] : List Date),
          dateLe d ⟨2024, 9, 10⟩ → dateLe d m) ∧
      ((∀ d ∈ ([⟨2024, 9, 14⟩, ⟨2024, 9, 21⟩] : List Date), ¬ dateLe d ⟨2024, 9, 10⟩) →
        ∀ d ∈ ([⟨2024, 9, 14⟩, ⟨2024, 9, 21⟩] : List Date), dateLe d m) :=
  resolveCandidateDate_latest [⟨2024, 9, 14⟩, ⟨2024, 9, 21⟩] ⟨2024, 9, 10⟩ (by decide)

/-! ## Claim C5 -/

/-- Counterexample to C5 as stated: the raw extraction returns a list, and
the same calendar date occurring twice in the text appears twice in it. -/
theorem extractDates_duplicates_cex :
    _extract_dates_from_text "Sep 28 Sep 28" 2024 =
      [⟨2024, 9, 28⟩, ⟨2024, 9, 28⟩] ∧
    ¬ (_extract_dates_from_text "Sep 28 Sep 28" 2024).Nodup := by
  constructor
  · rfl
  · decide

/-- Amended C5: `_extract_dates_from_text` may return the same date several
times; each discovery-stage caller collapses duplicates with
`sorted(set(ds))` (`ds_unique`) before resolving, so the set handed to the
resolution policy holds each date at most once and exactly the extracted
dates. -/
theorem ds_unique_extract_nodup (text : String) (year_hint : Nat) :
    (ds_unique (_extract_dates_from_text text year_hint)).Nodup ∧
    ∀ d, d ∈ ds_unique (_extract_dates_from_text text year_hint) ↔
      d ∈ _extract_dates_from_text text year_hint := by
  constructor
  · exact ((List.perm_insertionSort dateLe _).nodup_iff).2 (List.nodup_dedup _)
  · intro d; exact mem_ds_unique

/-! ## Claim C6 -/

/-- Claim C6 (confirmed): every date returned by `_extract_dates_from_text`
passed the `datetime.date` validity check (in particular "February 30"
contributes nothing), and the function is total — the `ValueError` of an
invalid month/day combination is caught and the match is dropped. -/
theorem extractDates_valid :
    (∀ (text : String) (year_hint : Nat),
      ∀ d ∈ _extract_dates_from_text text year_hint,
        isValidDate d.year d.month d.day = true) ∧
    _extract_dates_from_text "February 30" 2024 = [] := by
  constructor
  · intro text y d hd
    unfold _extract_dates_from_text extractDatesL at hd
    rw [List.mem_append] at hd
    rcases hd with hd | hd
    · rw [List.mem_filterMap] at hd
      rcases hd with ⟨md, _, hf⟩
      split at hf
      · split at hf
        · split at hf
          · rename_i hval
            cases hf
            exact hval
          · cases hf
        · cases hf
      · cases hf
    · rw [List.mem_filterMap] at hd
      rcases hd with ⟨md, _, hf⟩
      split at hf
      · split at hf
        · rename_i hval
          cases hf
          exact hval
        · cases hf
      · cases hf
  · rfl

/-- Witness for C6: "March 5" next to an invalid "February 30" is returned
and is a valid date. -/
theorem extractDates_valid_witness :
    (⟨2024, 3, 5⟩ : Date) ∈ _extract_dates_from_text "February 30 and March 5" 2024 ∧
    isValidDate 2024 3 5 = true :=
  ⟨by decide,
   extractDates_valid.1 "February 30 and March 5" 2024 ⟨2024, 3, 5⟩ (by decide)⟩

/-! ## Claim C2 -/

theorem pyMax_foldl_spec : ∀ (l : List (Date × String)) (a : Date × String),
    ∃ m, List.foldl pyMaxStep (some a) l = some m ∧ (m = a ∨ m ∈ l) ∧
      dateLe a.1 m.1 ∧ ∀ x ∈ l, dateLe x.1 m.1 := by
  intro l
  induction l with
  | nil => intro a; exact ⟨a, rfl, Or.inl rfl, dateLe_refl _, by simp⟩
  | cons g t ih =>
    intro a
    rw [List.foldl_cons]
    by_cases hlt : dateLt a.1 g.1
    · have hstep : pyMaxStep (some a) g = some g := by simp [pyMaxStep, hlt]
      rw [hstep]
      rcases ih g with ⟨m, hm, hmem, hle, hall⟩
      refine ⟨m, hm, ?_, ?_, ?_⟩
      · rcases hmem with rfl | hmem
        · exact Or.inr (List.mem_cons_self _ _)
        · exact Or.inr (List.mem_cons_of_mem _ hmem)
      · exact dateLe_trans (dateLe_of_dateLt hlt) hle
      · intro x hx
        rcases List.mem_cons.1 hx with rfl | hx
        · exact hle
        · exact hall x hx
    · have hstep : pyMaxStep (some a) g = some a := by simp [pyMaxStep, hlt]
      rw [hstep]
      rcases ih a with ⟨m, hm, hmem, hle, hall⟩
      refine ⟨m, hm, ?_, hle, ?_⟩
      · rcases hmem with rfl | hmem
        · exact Or.inl rfl
        · exact Or.inr (List.mem_cons_of_mem _ hmem)
      · intro x hx
        rcases List.mem_cons.1 hx with rfl | hx
        · exact dateLe_trans (dateLe_of_not_dateLt hlt) hle
        · exact hall x hx

theorem pyMaxByDate_spec {l : List (Date × String)} (h : l ≠ []) :
    ∃ m, pyMaxByDate l = some m ∧ m ∈ l ∧ ∀ x ∈ l, dateLe x.1 m.1 := by
  cases l with
  | nil => exact absurd rfl h
  | cons a t =>
    rcases pyMax_foldl_spec t a with ⟨m, hm, hmem, hle, hall⟩
    refine ⟨m, ?_, ?_, ?_⟩
    · simpa [pyMaxByDate, List.foldl_cons, pyMaxStep] using hm
    · rcases hmem with rfl | hmem
      · exact List.mem_cons_self _ _
      · exact List.mem_cons_of_mem _ hmem
    · intro x hx
      rcases List.mem_cons.1 hx with rfl | hx
      · exact hle
      · exact hall x hx

theorem pyMaxByDate_none {l : List (Date × String)} (h : pyMaxByDate l = none) :
    l = [] := by
  cases l with
  | nil => rfl
  | cons a t =>
    rcases pyMaxByDate_spec (l := a :: t) (by simp) with ⟨m, hm, _⟩
    rw [h] at hm
    cases hm

/-- Claim C2 (confirmed): in the series-resources fallback, when the
collected dated "discussion guide" anchors are non-empty, the chosen guide
is one of them; it is dated exactly today when some collected guide is;
otherwise it carries the latest resolved date `<= today` when one exists;
otherwise the latest resolved date overall. -/
theorem find_today_stage3_spec (anchors : List Anchor) (today : Date)
    (join : String → String)
    (h : collectDatedGuides anchors today join ≠ []) :
    ∃ g ∈ collectDatedGuides anchors today join,
      find_today_discussion_stage3 anchors today join = some g ∧
      ((∃ g' ∈ collectDatedGuides anchors today join, g'.1 = today) →
        g.1 = today) ∧
      ((∀ g' ∈ collectDatedGuides anchors today join, g'.1 ≠ today) →
        (∃ g' ∈ collectDatedGuides anchors today join, dateLe g'.1 today) →
        dateLe g.1 today ∧
        ∀ g' ∈ collectDatedGuides anchors today join,
          dateLe g'.1 today → dateLe g'.1 g.1) ∧
      ((∀ g' ∈ collectDatedGuides anchors today join, ¬ dateLe g'.1 today) →
        ∀ g' ∈ collectDatedGuides anchors today join, dateLe g'.1 g.1) := by
  unfold find_today_discussion_stage3 stage3ChooseGuide
  set gs := collectDatedGuides anchors today join with hgs
  rw [if_neg (by simpa [List.isEmpty_iff] using h)]
  dsimp only
  have hperm := List.perm_insertionSort guideLe gs
  have hsorted : (List.insertionSort guideLe gs).Sorted guideLe :=
    List.sorted_insertionSort guideLe gs
  set sl := List.insertionSort guideLe gs with hsl
  have hmem_sl : ∀ x, x ∈ sl ↔ x ∈ gs := fun x => hperm.mem_iff
  cases hex : sl.filter (fun g => decide (g.1 = today)) with
  | cons g t =>
    have hgf : g ∈ sl.filter (fun g => decide (g.1 = today)) := by
      rw [hex]; exact List.mem_cons_self _ _
    have hg_today : g.1 = today := by
      have := List.of_mem_filter hgf
      simpa using this
    have hg_gs : g ∈ gs := (hmem_sl g).1 (List.mem_of_mem_filter hgf)
    refine ⟨g, hg_gs, rfl, fun _ => hg_today, ?_, ?_⟩
    · intro hne _
      exact absurd hg_today (hne g hg_gs)
    · intro hnole
      exact absurd (hg_today ▸ dateLe_refl today) (hnole g hg_gs)
  | nil =>
    have hno_eq : ∀ g' ∈ gs, g'.1 ≠ today := by
      intro g' hg'
      have := List.filter_eq_nil_iff.1 hex g' ((hmem_sl g').2 hg')
      simpa using this
    cases hp : pyMaxByDate (sl.filter (fun g => decide (dateLe g.1 today))) with
    | some m =>
      have hpne : sl.filter (fun g => decide (dateLe g.1 today)) ≠ [] := by
        intro hc
        rw [hc] at hp
        cases hp
      rcases pyMaxByDate_spec hpne with ⟨m', hm', hmem', hall'⟩
      rw [hp] at hm'
      cases hm'
      have hm_le : dateLe m.1 today := by
        have := List.of_mem_filter hmem'
        simpa using this
      have hm_gs : m ∈ gs := (hmem_sl m).1 (List.mem_of_mem_filter hmem')
      refine ⟨m, hm_gs, rfl, ?_, ?_, ?_⟩
      · intro hex_eq
        rcases hex_eq with ⟨g', hg', hg'eq⟩
        exact absurd hg'eq (hno_eq g' hg')
      · intro _ _
        refine ⟨hm_le, ?_⟩
        intro g' hg' hg'le
        have : g' ∈ sl.filter (fun g => decide (dateLe g.1 today)) := by
          rw [List.mem_filter]
          exact ⟨(hmem_sl g').2 hg', by simpa using hg'le⟩
        exact hall' g' this
      · intro hnole
        exact absurd hm_le (hnole m hm_gs)
    | none =>
      have hpe : sl.filter (fun g => decide (dateLe g.1 today)) = [] :=
        pyMaxByDate_none hp
      have hnole_sl : ∀ g' ∈ gs, ¬ dateLe g'.1 today := by
        intro g' hg'
        have := List.filter_eq_nil_iff.1 hpe g' ((hmem_sl g').2 hg')
        simpa using this
      have hslne : sl ≠ [] := by
        intro hc
        rcases List.exists_mem_of_ne_nil gs h with ⟨x, hx⟩
        have := (hmem_sl x).2 hx
        rw [hc] at this
        simp at this
      rcases getLast?_of_ne_nil hslne with ⟨m, hm⟩
      have hm_gs : m ∈ gs := (hmem_sl m).1 (getLast?_mem' hm)
      refine ⟨m, hm_gs, hm, ?_, ?_, ?_⟩
      · intro hex_eq
        rcases hex_eq with ⟨g', hg', hg'eq⟩
        exact absurd hg'eq (hno_eq g' hg')
      · intro _ hex_le
        rcases hex_le with ⟨g', hg', hg'le⟩
        exact absurd hg'le (hnole_sl g' hg')
      · intro _ g' hg'
        exact rel_getLast?_of_sorted hsorted hm g' ((hmem_sl g').2 hg')

/-- Witness for C2, the spec's end-to-end stage-3 scenario: anchors dated
Sept 14 and Sept 21 with today = 2024-09-21. -/
theorem find_today_stage3_spec_witness :
    ∃ g ∈ collectDatedGuides anchorsStage3Ex todayStage3Ex id,
      find_today_discussion_stage3 anchorsStage3Ex todayStage3Ex id = some g ∧
      ((∃ g' ∈ collectDatedGuides anchorsStage3Ex todayStage3Ex id,
          g'.1 = todayStage3Ex) → g.1 = todayStage3Ex) ∧
      ((∀ g' ∈ collectDatedGuides anchorsStage3Ex todayStage3Ex id,
          g'.1 ≠ todayStage3Ex) →
        (∃ g' ∈ collectDatedGuides anchorsStage3Ex todayStage3Ex id,
          dateLe g'.1 todayStage3Ex) →
        dateLe g.1 todayStage3Ex ∧
        ∀ g' ∈ collectDatedGuides anchorsStage3Ex todayStage3Ex id,
          dateLe g'.1 todayStage3Ex → dateLe g'.1 g.1) ∧
      ((∀ g' ∈ collectDatedGuides anchorsStage3Ex todayStage3Ex id,
          ¬ dateLe g'.1 todayStage3Ex) →
        ∀ g' ∈ collectDatedGuides anchorsStage3Ex todayStage3Ex id,
          dateLe g'.1 g.1) :=
  find_today_stage3_spec anchorsStage3Ex todayStage3Ex id (by decide)

/-! ## Claim C3 -/

/-- Counterexample to C3: stage 2 opens a `/message/` link whose context
date (Sept 14) does not match today (2024-09-21) — the code never requires
a date matching today, it applies the latest-`<=`-today policy. -/
theorem find_message_page_cex :
    _find_message_page_for_today anchorsStage2Ex ⟨2024, 9, 21⟩ id =
      some "/message/a" ∧
    (⟨2024, 9, 21⟩ : Date) ∉ _extract_dates_from_text "Sept 14" 2024 := by
  refine ⟨?_, by decide⟩
  rfl

/-- Amended C3: stage 2 collects every `/message/` link with at least one
extractable context date, resolves each by the `<=`-today policy, and opens
one carrying the latest resolved date `<= today` (the latest overall when
none qualifies).  The original claim's final step — which "discussion
guide" anchor the opened message page contributes — is not asserted: the
helper implementing it does not parse in the source (see the reason
recorded with the claim). -/
theorem find_message_page_amended (anchors : List Anchor) (today : Date)
    (join : String → String)
    (h : collectMessageCandidates anchors today join ≠ []) :
    ∃ c ∈ collectMessageCandidates anchors today join,
      _find_message_page_for_today anchors today join = some c.2 ∧
      ((∃ c' ∈ collectMessageCandidates anchors today join,
          dateLe c'.1 today) →
        dateLe c.1 today ∧
        ∀ c' ∈ collectMessageCandidates anchors today join,
          dateLe c'.1 today → dateLe c'.1 c.1) ∧
      ((∀ c' ∈ collectMessageCandidates anchors today join,
          ¬ dateLe c'.1 today) →
        ∀ c' ∈ collectMessageCandidates anchors today join,
          dateLe c'.1 c.1) := by
  unfold _find_message_page_for_today
  set cs := collectMessageCandidates anchors today join with hcs
  rw [if_neg (by simpa [List.isEmpty_iff] using h)]
  dsimp only
  have hperm := List.perm_insertionSort guideLe cs
  have hsorted : (List.insertionSort guideLe cs).Sorted guideLe :=
    List.sorted_insertionSort guideLe cs
  set sl := List.insertionSort guideLe cs with hsl
  have hmem_sl : ∀ x, x ∈ sl ↔ x ∈ cs := fun x => hperm.mem_iff
  have hsf : (sl.filter (fun c => decide (dateLe c.1 today))).Sorted guideLe :=
    hsorted.filter _
  cases hf : sl.filter (fun c => decide (dateLe c.1 today)) with
  | cons c0 t0 =>
    have hne : sl.filter (fun c => decide (dateLe c.1 today)) ≠ [] := by
      rw [hf]; simp
    rcases getLast?_of_ne_nil hne with ⟨m, hm⟩
    have hm_f : m ∈ sl.filter (fun c => decide (dateLe c.1 today)) :=
      getLast?_mem' hm
    have hm_le : dateLe m.1 today := by
      have := List.of_mem_filter hm_f
      simpa using this
    have hm_cs : m ∈ cs := (hmem_sl m).1 (List.mem_of_mem_filter hm_f)
    refine ⟨m, hm_cs, by rw [← hf, hm], ?_, ?_⟩
    · intro _
      refine ⟨hm_le, ?_⟩
      intro c' hc' hc'le
      have hcf : c' ∈ sl.filter (fun c => decide (dateLe c.1 today)) := by
        rw [List.mem_filter]
        exact ⟨(hmem_sl c').2 hc', by simpa using hc'le⟩
      exact rel_getLast?_of_sorted hsf hm c' hcf
    · intro hnole
      exact absurd hm_le (hnole m hm_cs)
  | nil =>
    have hnole_cs : ∀ c' ∈ cs, ¬ dateLe c'.1 today := by
      intro c' hc'
      have := List.filter_eq_nil_iff.1 hf c' ((hmem_sl c').2 hc')
      simpa using this
    have hslne : sl ≠ [] := by
      intro hc
      rcases List.exists_mem_of_ne_nil cs h with ⟨x, hx⟩
      have := (hmem_sl x).2 hx
      rw [hc] at this
      simp at this
    rcases getLast?_of_ne_nil hslne with ⟨m, hm⟩
    have hm_cs : m ∈ cs := (hmem_sl m).1 (getLast?_mem' hm)
    refine ⟨m, hm_cs, by simp [hf, hm], ?_, ?_⟩
    · intro hex_le
      rcases hex_le with ⟨c', hc', hc'le⟩
      exact absurd hc'le (hnole_cs c' hc')
    · intro _ c' hc'
      exact rel_getLast?_of_sorted hsorted hm c' ((hmem_sl c').2 hc')
/-- Witness for the amended C3: two dated message links (Sept 7, Sept 14)
with today = 2024-09-21; the latest-past link is opened. -/
theorem find_message_page_amended_witness :
    ∃ c ∈ collectMessageCandidates anchorsStage2Wit ⟨2024, 9, 21⟩ id,
      _find_message_page_for_today anchorsStage2Wit ⟨2024, 9, 21⟩ id =
        some c.2 ∧
      ((∃ c' ∈ collectMessageCandidates anchorsStage2Wit ⟨2024, 9, 21⟩ id,
          dateLe c'.1 ⟨2024, 9, 21⟩) →
        dateLe c.1 ⟨2024, 9, 21⟩ ∧
        ∀ c' ∈ collectMessageCandidates anchorsStage2Wit ⟨2024, 9, 21⟩ id,
          dateLe c'.1 ⟨2024, 9, 21⟩ → dateLe c'.1 c.1) ∧
      ((∀ c' ∈ collectMessageCandidates anchorsStage2Wit ⟨2024, 9, 21⟩ id,
          ¬ dateLe c'.1 ⟨2024, 9, 21⟩) →
        ∀ c' ∈ collectMessageCandidates anchorsStage2Wit ⟨2024, 9, 21⟩ id,
          dateLe c'.1 c.1) :=
  find_message_page_amended anchorsStage2Wit ⟨2024, 9, 21⟩ id (by decide)

/-! ## Claim C4 -/

/-- Claim C4 (code bug): the `_BULLET` class `[–—-•]` contains an
accidental range (the unescaped hyphen between U+2014 and U+2022), so a
line bulleted with an ASCII hyphen does *not* start a new item — on the
claim's own shape with the first bullet written as a hyphen, the first
question is silently dropped, by the merge loop and hence by
`parse_html_guide` itself; with en dashes (as in the spec's literal
example) the two expected items are produced; the class rejects the hyphen
and accepts a curly quote. -/
theorem html_bullet_hyphen_dropped :
    htmlMergeAux none ["- What is grace?".data, "continued clause.".data,
      "– How does this apply?".data] = ["How does this apply?".data] ∧
    htmlMergeAux none ["– What is grace?".data, "continued clause.".data,
      "– How does this apply?".data] =
      ["What is grace? continued clause.".data, "How does this apply?".data] ∧
    (parse_html_guide docC4hyph).questions = ["How does this apply?"] ∧
    (parse_html_guide docC4dash).questions =
      ["What is grace? continued clause.", "How does this apply?"] ∧
    isHtmlBulletChar '-' = false ∧ isHtmlBulletChar '‘' = true :=
  ⟨rfl, rfl, rfl, rfl, rfl, rfl⟩

/-! ## Claim C7 -/

theorem find?_first_of_split {α : Type} (p : α → Bool) :
    ∀ (pre : List α) (x : α) (post : List α),
      (∀ y ∈ pre, p y = false) → p x = true →
      (pre ++ x :: post).find? p = some x := by
  intro pre
  induction pre with
  | nil => intro x post _ hx; simp [List.find?_cons_of_pos, hx]
  | cons a t ih =>
    intro x post hpre hx
    have ha : p a = false := hpre a (List.mem_cons_self _ _)
    rw [List.cons_append, List.find?_cons_of_neg _ (by simp [ha])]
    exact ih x post (fun y hy => hpre y (List.mem_cons_of_mem _ hy)) hx

/-- Claim C7 (confirmed): when the HTML parse yields zero questions and the
fetched page's hrefs contain a PDF-suffixed link (first such link `h` after
a PDF-free prefix), the orchestrator runs the PDF parser exactly once, on
that link; the output record is still written, and if that parse also
yields zero questions the record simply carries an empty question list. -/
theorem main_escalation_spec (htmlData : ParsedGuide)
    (hrefs pre post : List String) (h : String)
    (pdfOracle : String → PdfGuide) (join : String → String) (url : String)
    (hq : htmlData.questions = [])
    (hsplit : hrefs = pre ++ h :: post)
    (hpre : ∀ x ∈ pre, isPdfHref x = false)
    (hh : isPdfHref h = true) :
    mainHtmlEscalation htmlData hrefs pdfOracle join =
      (((pdfOracle (join h)).questions, (pdfOracle (join h)).sections),
        [join h]) ∧
    write_json url (mainHtmlEscalation htmlData hrefs pdfOracle join).1.1
        (mainHtmlEscalation htmlData hrefs pdfOracle join).1.2 =
      ⟨url, (pdfOracle (join h)).questions, (pdfOracle (join h)).sections⟩ ∧
    ((pdfOracle (join h)).questions = [] →
      (write_json url (mainHtmlEscalation htmlData hrefs pdfOracle join).1.1
        (mainHtmlEscalation htmlData hrefs pdfOracle join).1.2).questions =
        []) := by
  have hfind : firstPdfLink hrefs = some h := by
    rw [hsplit]
    exact find?_first_of_split isPdfHref pre h post hpre hh
  have hmain : mainHtmlEscalation htmlData hrefs pdfOracle join =
      (((pdfOracle (join h)).questions, (pdfOracle (join h)).sections),
        [join h]) := by
    unfold mainHtmlEscalation
    rw [if_pos (by simp [hq]), hfind]
  refine ⟨hmain, ?_, ?_⟩
  · rw [hmain]
    rfl
  · intro he
    rw [hmain]
    simpa [write_json] using he

/-- Witness for C7: one non-PDF link followed by "week.PDF"; the oracle
yields no questions, and the written record carries an empty list. -/
theorem main_escalation_spec_witness :
    mainHtmlEscalation htmlDataEx ["guide.html", "week.PDF"] pdfOracleEx id =
      (((pdfOracleEx (id "week.PDF")).questions,
        (pdfOracleEx (id "week.PDF")).sections), [id "week.PDF"]) ∧
    write_json "u"
        (mainHtmlEscalation htmlDataEx ["guide.html", "week.PDF"] pdfOracleEx id).1.1
        (mainHtmlEscalation htmlDataEx ["guide.html", "week.PDF"] pdfOracleEx id).1.2 =
      ⟨"u", (pdfOracleEx (id "week.PDF")).questions,
        (pdfOracleEx (id "week.PDF")).sections⟩ ∧
    ((pdfOracleEx (id "week.PDF")).questions = [] →
      (write_json "u"
        (mainHtmlEscalation htmlDataEx ["guide.html", "week.PDF"] pdfOracleEx id).1.1
        (mainHtmlEscalation htmlDataEx ["guide.html", "week.PDF"] pdfOracleEx id).1.2).questions =
        []) :=
  main_escalation_spec htmlDataEx ["guide.html", "week.PDF"] ["guide.html"]
    [] "week.PDF" pdfOracleEx id "u" rfl rfl (by decide) (by decide)

/-! ## Claim C10 -/

theorem htmlMergeAux_cons_skip {a : List Char}
    (ha : _BULLET_match (stripList a) = false) (ls : List (List Char)) :
    htmlMergeAux none (a :: ls) = htmlMergeAux none ls := by
  simp [htmlMergeAux, ha, truthy]

theorem pdfMergeAux_cons_skip {a : List Char}
    (ha : BULLET_RE_match (stripList a) = false) (ls : List (List Char)) :
    pdfMergeAux none (a :: ls) = pdfMergeAux none ls := by
  simp [pdfMergeAux, ha, truthy]

/-- Claim C10 (confirmed): in both parsers' merge loops, with no item open
(`buf` falsy) every non-bullet line — in particular every line before the
first bullet-marked line — is discarded without joining any item, and a
block with no bullet-marked line at all yields no items (hence no
questions). -/
theorem merge_drops_prebullet :
    (∀ (pre rest : List (List Char)),
      (∀ l ∈ pre, _BULLET_match (stripList l) = false) →
      htmlMergeAux none (pre ++ rest) = htmlMergeAux none rest) ∧
    (∀ (pre rest : List (List Char)),
      (∀ l ∈ pre, BULLET_RE_match (stripList l) = false) →
      pdfMergeAux none (pre ++ rest) = pdfMergeAux none rest) ∧
    (∀ lines : List (List Char),
      (∀ l ∈ lines, _BULLET_match (stripList l) = false) →
      htmlMergeAux none lines = []) ∧
    (∀ lines : List (List Char),
      (∀ l ∈ lines, BULLET_RE_match (stripList l) = false) →
      pdfMergeAux none lines = []) := by
  have h1 : ∀ (pre rest : List (List Char)),
      (∀ l ∈ pre, _BULLET_match (stripList l) = false) →
      htmlMergeAux none (pre ++ rest) = htmlMergeAux none rest := by
    intro pre
    induction pre with
    | nil => intro rest _; rfl
    | cons a t ih =>
      intro rest hpre
      rw [List.cons_append,
        htmlMergeAux_cons_skip (hpre a (List.mem_cons_self _ _))]
      exact ih rest (fun l hl => hpre l (List.mem_cons_of_mem _ hl))
  have h2 : ∀ (pre rest : List (List Char)),
      (∀ l ∈ pre, BULLET_RE_match (stripList l) = false) →
      pdfMergeAux none (pre ++ rest) = pdfMergeAux none rest := by
    intro pre
    induction pre with
    | nil => intro rest _; rfl
    | cons a t ih =>
      intro rest hpre
      rw [List.cons_append,
        pdfMergeAux_cons_skip (hpre a (List.mem_cons_self _ _))]
      exact ih rest (fun l hl => hpre l (List.mem_cons_of_mem _ hl))
  refine ⟨h1, h2, ?_, ?_⟩
  · intro lines hl
    have := h1 lines [] hl
    rwa [List.append_nil] at this
  · intro lines hl
    have := h2 lines [] hl
    rwa [List.append_nil] at this

/-- Witness for C10: discarded pre-bullet lines and a bullet-free block. -/
theorem merge_drops_prebullet_witness :
    htmlMergeAux none ["intro text".data, "– Q one?".data] =
      htmlMergeAux none ["– Q one?".data] ∧
    pdfMergeAux none ["intro text".data, "– Q one?".data] =
      pdfMergeAux none ["– Q one?".data] ∧
    htmlMergeAux none ["no bullets".data, "at all".data] = [] ∧
    pdfMergeAux none ["no bullets".data, "at all".data] = [] :=
  ⟨merge_drops_prebullet.1 ["intro text".data] _ (by decide),
   merge_drops_prebullet.2.1 ["intro text".data] _ (by decide),
   merge_drops_prebullet.2.2.1 _ (by decide),
   merge_drops_prebullet.2.2.2 _ (by decide)⟩

/-! ## String utilities: `stripList`, `normChars` -/

theorem head?_dropWhile_not {p : Char → Bool} :
    ∀ {l : List Char} {c : Char}, (l.dropWhile p).head? = some c → p c = false := by
  intro l
  induction l with
  | nil => intro c h; simp at h
  | cons a t ih =>
    intro c h
    by_cases hp : p a = true
    · rw [List.dropWhile_cons_of_pos hp] at h
      exact ih h
    · rw [List.dropWhile_cons_of_neg hp] at h
      simp at h
      subst h
      simpa using hp

theorem mem_dropWhile_of_not {p : Char → Bool} :
    ∀ {l : List Char} {x : Char}, x ∈ l → p x = false → x ∈ l.dropWhile p := by
  intro l
  induction l with
  | nil => intro x hx; simp at hx
  | cons a t ih =>
    intro x hx hpx
    by_cases hp : p a = true
    · rw [List.dropWhile_cons_of_pos hp]
      rcases List.mem_cons.1 hx with rfl | hx
      · rw [hpx] at hp; cases hp
      · exact ih hx hpx
    · rw [List.dropWhile_cons_of_neg hp]
      exact hx

theorem mem_stripList_of_not {l : List Char} {x : Char}
    (hx : x ∈ l) (hpx : isSpaceChar x = false) : x ∈ stripList l := by
  unfold stripList
  rw [List.mem_reverse]
  refine mem_dropWhile_of_not ?_ hpx
  rw [List.mem_reverse]
  exact mem_dropWhile_of_not hx hpx

theorem mem_of_mem_stripList {l : List Char} {x : Char}
    (hx : x ∈ stripList l) : x ∈ l := by
  unfold stripList at hx
  rw [List.mem_reverse] at hx
  have := List.dropWhile_sublist (l := ((l.dropWhile isSpaceChar).reverse))
    (p := isSpaceChar)
  have hx2 := this.mem hx
  rw [List.mem_reverse] at hx2
  exact (List.dropWhile_sublist _).mem hx2

theorem stripList_ne_nil {l : List Char} {x : Char}
    (hx : x ∈ l) (hpx : isSpaceChar x = false) : stripList l ≠ [] := by
  intro hc
  have := mem_stripList_of_not hx hpx
  rw [hc] at this
  simp at this

theorem stripList_head?_not {l : List Char} {c : Char}
    (h : (stripList l).head? = some c) : isSpaceChar c = false := by
  unfold stripList at h
  rw [List.head?_reverse] at h
  set A := l.dropWhile isSpaceChar with hA
  set B := A.reverse.dropWhile isSpaceChar with hB
  have hBne : B ≠ [] := by
    intro hc
    rw [hc] at h
    simp at h
  have hsplit : A.reverse.takeWhile isSpaceChar ++ B = A.reverse := by
    rw [hB, List.takeWhile_append_dropWhile]
  have h2 : A.reverse.getLast? = some c := by
    rw [← hsplit, List.getLast?_append_of_ne_nil _ hBne]
    exact h
  rw [List.getLast?_reverse] at h2
  exact head?_dropWhile_not h2

theorem stripList_getLast?_not {l : List Char} {c : Char}
    (h : (stripList l).getLast? = some c) : isSpaceChar c = false := by
  unfold stripList at h
  rw [List.getLast?_reverse] at h
  exact head?_dropWhile_not h

theorem stripList_noop {l : List Char}
    (h1 : ∀ c, l.head? = some c → isSpaceChar c = false)
    (h2 : ∀ c, l.getLast? = some c → isSpaceChar c = false) :
    stripList l = l := by
  unfold stripList
  have hd : l.dropWhile isSpaceChar = l := by
    cases l with
    | nil => rfl
    | cons a t => exact List.dropWhile_cons_of_neg (by simp [h1 a rfl])
  rw [hd]
  have hr : l.reverse.dropWhile isSpaceChar = l.reverse := by
    cases hrev : l.reverse with
    | nil => rfl
    | cons a t =>
      refine List.dropWhile_cons_of_neg ?_
      have : l.getLast? = some a := by
        rw [← List.head?_reverse, hrev]
        rfl
      simp [h2 a this]
  rw [hr, List.reverse_reverse]

theorem stripList_idem (l : List Char) :
    stripList (stripList l) = stripList l :=
  stripList_noop (fun _ h => stripList_head?_not h)
    (fun _ h => stripList_getLast?_not h)

theorem matchCI_decomp :
    ∀ (pat cs rest : List Char), matchCI pat cs = some rest →
      ∃ pre, cs = pre ++ rest ∧ pre.map charLower = pat := by
  intro pat
  induction pat with
  | nil =>
    intro cs rest h
    unfold matchCI at h
    cases h
    exact ⟨[], rfl, rfl⟩
  | cons p ps ih =>
    intro cs rest h
    cases cs with
    | nil => cases h
    | cons c cs2 =>
      unfold matchCI at h
      split at h
      · rename_i hc
        rcases ih cs2 rest h with ⟨pre, heq, hmap⟩
        exact ⟨c :: pre, by rw [List.cons_append, heq], by simp [hmap, hc]⟩
      · cases h

theorem isSpaceChar_charLower {x : Char} (h : isSpaceChar x = true) :
    charLower x = x := by
  simp only [isSpaceChar, Bool.or_eq_true, decide_eq_true_eq, or_assoc] at h
  rcases h with h | h | h | h | h | h | h <;> subst h <;> rfl

/-! ## Claim C9 -/

theorem matchKeywordBAt_exists_nonspace {cs : List Char}
    (h : matchKeywordBAt cs = true) : ∃ x ∈ cs, isSpaceChar x = false := by
  unfold matchKeywordBAt at h
  rw [List.any_eq_true] at h
  rcases h with ⟨w, hw, hmatch⟩
  have hkw : ∀ w' ∈ pdfKeywords, w'.headD 'a' ≠ ' ' ∧ w' ≠ [] ∧
      isSpaceChar (w'.headD 'a') = false := by decide
  rcases hm : matchCI w cs with _ | rest
  · rw [hm] at hmatch
    cases hmatch
  · rcases matchCI_decomp w cs rest hm with ⟨pre, heq, hmap⟩
    rcases hkw w hw with ⟨_, hwne, hwh⟩
    cases pre with
    | nil =>
      rw [← hmap] at hwne
      simp at hwne
    | cons x pre2 =>
      refine ⟨x, by rw [heq]; exact List.mem_append_left _ (List.mem_cons_self _ _), ?_⟩
      by_contra hxs
      rw [Bool.not_eq_false] at hxs
      have hxlow : charLower x = x := isSpaceChar_charLower hxs
      have : charLower x = w.headD 'a' := by
        rw [← hmap]
        simp
      rw [hxlow] at this
      rw [this] at hxs
      rw [hxs] at hwh
      cases hwh

theorem pdfKeySearchAux_exists_nonspace :
    ∀ (cs : List Char) (w : Bool), pdfKeySearchAux cs w = true →
      ∃ x ∈ cs, isSpaceChar x = false := by
  intro cs
  induction cs with
  | nil => intro w h; cases h
  | cons c t ih =>
    intro w h
    unfold pdfKeySearchAux at h
    rw [Bool.or_eq_true] at h
    rcases h with h | h
    · rw [Bool.and_eq_true] at h
      exact matchKeywordBAt_exists_nonspace h.2
    · rcases ih _ h with ⟨x, hx, hxs⟩
      exact ⟨x, List.mem_cons_of_mem _ hx, hxs⟩

theorem pdfQuestionFilter_strip_ne_nil {q : List Char}
    (h : pdfQuestionFilter q = true) : stripList q ≠ [] := by
  unfold pdfQuestionFilter at h
  rw [Bool.or_eq_true] at h
  rcases h with h | h
  · have hq : q.getLast? = some '?' := by
      simpa using h
    exact stripList_ne_nil (getLast?_mem' hq) (by decide)
  · rcases pdfKeySearchAux_exists_nonspace q false h with ⟨x, hx, hxs⟩
    exact stripList_ne_nil hx hxs

/-- Every item the PDF merge loop emits is the `strip` of something. -/
theorem pdfMergeAux_items_stripped :
    ∀ (lines : List (List Char)) (buf : Option (List Char)),
      ∀ x ∈ pdfMergeAux buf lines, ∃ y, x = stripList y := by
  intro lines
  induction lines with
  | nil =>
    intro buf x hx
    unfold pdfMergeAux at hx
    split at hx
    · rcases List.mem_singleton.1 hx with rfl
      exact ⟨_, rfl⟩
    · simp at hx
  | cons a t ih =>
    intro buf x hx
    rw [pdfMergeAux] at hx
    split at hx
    · exact ih _ _ hx
    · split at hx
      · rw [List.mem_append] at hx
        rcases hx with hx | hx
        · split at hx
          · rcases List.mem_singleton.1 hx with rfl
            exact ⟨_, rfl⟩
          · simp at hx
        · exact ih _ _ hx
      · split at hx
        · exact ih _ _ hx
        · exact ih _ _ hx

theorem string_mk_ne_empty {l : List Char} (h : l ≠ []) :
    (⟨l⟩ : String) ≠ "" := by
  intro hc
  have := congrArg String.data hc
  exact h this

/-- Claim C9 (confirmed): neither parser's question list contains an empty
string, and questions are, in order, a subsequence of the merged source
items (the PDF list comprehension re-strips each kept item, which is the
identity on the already-stripped items). -/
theorem questions_nonempty_ordered :
    (∀ doc : List El,
      (∀ q ∈ (parse_html_guide doc).questions, q ≠ "") ∧
      (parse_html_guide doc).questions.Sublist
        ((htmlItems doc).map (fun l => (⟨l⟩ : String)))) ∧
    (∀ raw : String,
      (∀ q ∈ (parse_pdf_guide raw).questions, q ≠ "") ∧
      (parse_pdf_guide raw).questions.Sublist
        ((pdfItems (_normalize_pdf_text raw.data)).map
          (fun l => (⟨l⟩ : String)))) := by
  constructor
  · intro doc
    constructor
    · intro q hq
      unfold parse_html_guide at hq
      rw [List.mem_map] at hq
      rcases hq with ⟨l, hl, rfl⟩
      have hfl : htmlQuestionFilter l = true := List.of_mem_filter hl
      refine string_mk_ne_empty ?_
      intro hc
      subst hc
      cases hfl
    · unfold parse_html_guide
      exact (List.filter_sublist _).map _
  · intro raw
    have hstr : ∀ q ∈ (pdfItems (_normalize_pdf_text raw.data)).filter
        pdfQuestionFilter, stripList q = q := by
      intro q hq
      rcases pdfMergeAux_items_stripped _ none q
        (List.mem_of_mem_filter hq) with ⟨y, rfl⟩
      exact stripList_idem y
    constructor
    · intro q hq
      unfold parse_pdf_guide at hq
      rw [List.mem_map] at hq
      rcases hq with ⟨l, hl, rfl⟩
      have hfl : pdfQuestionFilter l = true := List.of_mem_filter hl
      exact string_mk_ne_empty (pdfQuestionFilter_strip_ne_nil hfl)
    · have hmapeq :
          ((pdfItems (_normalize_pdf_text raw.data)).filter
            pdfQuestionFilter).map (fun q => (⟨stripList q⟩ : String)) =
          ((pdfItems (_normalize_pdf_text raw.data)).filter
            pdfQuestionFilter).map (fun l => (⟨l⟩ : String)) := by
        refine List.map_congr_left ?_
        intro q hq
        rw [hstr q hq]
      have hqs : (parse_pdf_guide raw).questions =
          ((pdfItems (_normalize_pdf_text raw.data)).filter
            pdfQuestionFilter).map (fun q => (⟨stripList q⟩ : String)) := rfl
      rw [hqs, hmapeq]
      exact (List.filter_sublist _).map _

/-- Witness for C9: a concrete HTML document and PDF text, each with a
retained question that is non-empty. -/
theorem questions_nonempty_ordered_witness :
    ("What is grace?" ∈ (parse_html_guide docQEx).questions ∧
      ("What is grace?" : String) ≠ "") ∧
    ("What does it mean?" ∈ (parse_pdf_guide rawQEx).questions ∧
      ("What does it mean?" : String) ≠ "") :=
  by
  have hhtml : (parse_html_guide docQEx).questions =
      ["What is grace?", "How does this apply?"] := by rfl
  have hpdf : (parse_pdf_guide rawQEx).questions = ["What does it mean?"] := by rfl
  refine ⟨⟨?_, ?_⟩, ?_, ?_⟩
  · rw [hhtml]
    exact List.mem_cons_self _ _
  · exact (questions_nonempty_ordered.1 docQEx).1 "What is grace?"
      (by rw [hhtml]; exact List.mem_cons_self _ _)
  · rw [hpdf]
    exact List.mem_cons_self _ _
  · exact (questions_nonempty_ordered.2 rawQEx).1 "What does it mean?"
      (by rw [hpdf]; exact List.mem_cons_self _ _)

/-! ## Claim C8 : lemma layer -/

theorem grabHtml_some :
    ∀ (pat : List Char → Bool) (doc : List El) (s : Sec),
      grabHtml pat doc = some s →
      (∃ e ∈ doc, isHeadingSelTag e.tag = true ∧ pat (getTextSpace e) = true ∧
        s.title = (⟨normChars (getTextSpace e)⟩ : String)) ∧ s.body ≠ "" := by
  intro pat doc
  induction doc with
  | nil => intro s h; cases h
  | cons e rest ih =>
    intro s h
    rw [grabHtml] at h
    split at h
    · rename_i hcond
      dsimp only at h
      split at h
      · cases h
      · rename_i hbody
        cases h
        rw [Bool.and_eq_true] at hcond
        refine ⟨⟨e, List.mem_cons_self _ _, hcond.1, hcond.2, rfl⟩, ?_⟩
        refine string_mk_ne_empty ?_
        simpa using hbody
    · rcases ih s h with ⟨⟨e', he', h1, h2, h3⟩, h4⟩
      exact ⟨⟨e', List.mem_cons_of_mem _ he', h1, h2, h3⟩, h4⟩

theorem captureUntilStop_head (c : Char) (rs : List Char) :
    ∃ t, captureUntilStop (c :: rs) = c :: t := by
  rw [captureUntilStop]
  split
  · exact ⟨[], rfl⟩
  · exact ⟨_, rfl⟩

theorem afterColonWS_dropWhile_head {l : List Char} {c : Char}
    {t : List Char} (h : afterColonWS (l.dropWhile isSpaceChar) = c :: t) :
    isSpaceChar c = false := by
  unfold afterColonWS at h
  split at h
  · exact head?_dropWhile_not (by rw [h]; rfl)
  · exact head?_dropWhile_not (by rw [h]; rfl)

theorem captureFrom_head :
    ∀ {r3 cap : List Char}, captureFrom r3 = some cap →
      ∃ c t t2, r3 = c :: t ∧ cap = c :: t2 := by
  intro r3 cap h
  cases r3 with
  | nil => cases h
  | cons c t =>
    cases h
    rcases captureUntilStop_head c t with ⟨t2, hcap⟩
    exact ⟨c, t, t2, rfl, hcap⟩

theorem tryGrabSecAt_head :
    ∀ {name cs cap}, tryGrabSecAt name cs = some cap →
      ∃ c t, cap = c :: t ∧ isSpaceChar c = false := by
  intro name cs cap h
  unfold tryGrabSecAt at h
  split at h
  · split at h
    · rcases captureFrom_head h with ⟨c, t, t2, heq, hcap⟩
      exact ⟨c, t2, hcap, afterColonWS_dropWhile_head heq⟩
    · cases h
  · cases h

theorem grabSecSearch_head :
    ∀ {name : List Char} (cs : List Char) {cap : List Char},
      grabSecSearch name cs = some cap →
      ∃ c t, cap = c :: t ∧ isSpaceChar c = false := by
  intro name cs
  induction cs with
  | nil => intro cap h; cases h
  | cons a rest ih =>
    intro cap h
    rw [grabSecSearch] at h
    split at h
    · rename_i htry
      cases h
      exact tryGrabSecAt_head htry
    · exact ih h

/-! ### `normChars` membership -/

theorem mem_collapseWS :
    ∀ {l : List Char} {x : Char}, x ∈ collapseWS l → x = ' ' ∨ x ∈ l := by
  intro l
  induction l with
  | nil => intro x hx; cases hx
  | cons c cs ih =>
    intro x hx
    rw [collapseWS] at hx
    split at hx
    · split at hx
      · rcases ih hx with h | h
        · exact Or.inl h
        · exact Or.inr (List.mem_cons_of_mem _ h)
      · rcases List.mem_cons.1 hx with rfl | hx2
        · exact Or.inl rfl
        · rcases ih hx2 with h | h
          · exact Or.inl h
          · exact Or.inr (List.mem_cons_of_mem _ h)
    · rcases List.mem_cons.1 hx with rfl | hx2
      · exact Or.inr (List.mem_cons_self _ _)
      · rcases ih hx2 with h | h
        · exact Or.inl h
        · exact Or.inr (List.mem_cons_of_mem _ h)

theorem mem_collapseWS_of_not :
    ∀ {l : List Char} {x : Char}, x ∈ l → isSpaceChar x = false →
      x ∈ collapseWS l := by
  intro l
  induction l with
  | nil => intro x hx; cases hx
  | cons c cs ih =>
    intro x hx hxs
    rw [collapseWS]
    rcases List.mem_cons.1 hx with rfl | hx2
    · rw [hxs]
      exact List.mem_cons_self _ _
    · have hr := ih hx2 hxs
      split
      · split
        · exact hr
        · exact List.mem_cons_of_mem _ hr
      · exact List.mem_cons_of_mem _ hr

theorem mem_normChars :
    ∀ {l : List Char} {x : Char}, x ∈ normChars l → x = ' ' ∨ x ∈ l := by
  intro l x hx
  unfold normChars at hx
  have h1 := mem_of_mem_stripList hx
  rcases mem_collapseWS h1 with h | h
  · exact Or.inl h
  · rw [List.mem_map] at h
    rcases h with ⟨y, hy, hfix⟩
    unfold fixNbsp at hfix
    split at hfix
    · exact Or.inl hfix.symm
    · rw [← hfix]
      exact Or.inr hy

theorem mem_normChars_of_not {l : List Char} {x : Char}
    (hx : x ∈ l) (hxs : isSpaceChar x = false) : x ∈ normChars l := by
  unfold normChars
  have hnb : x ≠ '\u00A0' := by
    intro hc
    subst hc
    exact absurd hxs (by decide)
  have hmap : x ∈ l.map fixNbsp := by
    rw [List.mem_map]
    exact ⟨x, hx, by unfold fixNbsp; rw [if_neg hnb]⟩
  exact mem_stripList_of_not (mem_collapseWS_of_not hmap hxs) hxs

/-! ### Letter-membership consequences of the heading patterns -/

theorem not_space_of_charLower {x c : Char} (h : charLower x = c)
    (hc : isSpaceChar c = false) : isSpaceChar x = false := by
  by_contra hs
  rw [Bool.not_eq_false] at hs
  rw [isSpaceChar_charLower hs] at h
  subst h
  rw [hs] at hc
  cases hc

theorem matchCI_exists_lower {pat cs rest : List Char} {c : Char}
    (h : matchCI pat cs = some rest) (hc : c ∈ pat) :
    ∃ x ∈ cs, charLower x = c := by
  rcases matchCI_decomp pat cs rest h with ⟨pre, rfl, hmap⟩
  rw [← hmap] at hc
  rw [List.mem_map] at hc
  rcases hc with ⟨x, hx, hlx⟩
  exact ⟨x, List.mem_append_left _ hx, hlx⟩

theorem matchMemAt_has_z {cs : List Char} (h : matchMemAt cs = true) :
    ∃ x ∈ cs, charLower x = 'z' := by
  unfold matchMemAt at h
  split at h
  · rename_i r1 hm
    exact matchCI_exists_lower hm (by decide)
  · cases h

theorem memSearchAux_has_z :
    ∀ (cs : List Char) (w : Bool), memSearchAux cs w = true →
      ∃ x ∈ cs, charLower x = 'z' := by
  intro cs
  induction cs with
  | nil => intro w h; cases h
  | cons c t ih =>
    intro w h
    rw [memSearchAux, Bool.or_eq_true] at h
    rcases h with h | h
    · rw [Bool.and_eq_true] at h
      exact matchMemAt_has_z h.2
    · rcases ih _ h with ⟨x, hx, hlx⟩
      exact ⟨x, List.mem_cons_of_mem _ hx, hlx⟩

theorem memSearch_has_z {cs : List Char} (h : memSearch cs = true) :
    ∃ x ∈ cs, charLower x = 'z' := memSearchAux_has_z cs false h

theorem nextStepsFull_has_x {cs : List Char} (h : nextStepsFull cs = true) :
    ∃ x ∈ cs, charLower x = 'x' := by
  unfold nextStepsFull at h
  split at h
  · rename_i r1 hm
    rcases matchCI_exists_lower hm (show 'x' ∈ "next".data by decide) with
      ⟨x, hx, hlx⟩
    exact ⟨x, (List.dropWhile_sublist _).mem hx, hlx⟩
  · cases h

theorem prayFull_chars {cs : List Char} (h : prayFull cs = true) :
    ∀ x ∈ cs, isSpaceChar x = true ∨ charLower x ∈ ['p', 'r', 'a', 'y'] := by
  unfold prayFull at h
  split at h
  · rename_i r hm
    intro x hx
    rcases matchCI_decomp _ _ _ hm with ⟨pre, hsplit, hmap⟩
    have hcs : cs.takeWhile isSpaceChar ++ (pre ++ r) = cs := by
      rw [← hsplit, List.takeWhile_append_dropWhile]
    rw [← hcs] at hx
    rw [List.mem_append] at hx
    rcases hx with hx | hx
    · exact Or.inl (List.mem_takeWhile_imp hx)
    · rw [List.mem_append] at hx
      rcases hx with hx | hx
      · refine Or.inr ?_
        have : charLower x ∈ pre.map charLower := List.mem_map_of_mem _ hx
        rw [hmap] at this
        exact this
      · exact Or.inl (by simpa using List.all_eq_true.1 h x hx)
  · cases h

theorem mem_of_sub_next {c : Char} (h : c ∈ "next".data) :
    c ∈ ['n', 'e', 'x', 't', 's', 'p'] := by
  have h2 : c = 'n' ∨ c = 'e' ∨ c = 'x' ∨ c = 't' := by
    simpa using h
  simp only [List.mem_cons, List.not_mem_nil, or_false]
  tauto

theorem mem_of_sub_steps {c : Char} (h : c ∈ "steps".data) :
    c ∈ ['n', 'e', 'x', 't', 's', 'p'] := by
  have h2 : c = 's' ∨ c = 't' ∨ c = 'e' ∨ c = 'p' ∨ c = 's' := by
    simpa using h
  simp only [List.mem_cons, List.not_mem_nil, or_false]
  tauto

theorem nextStepsFull_chars {cs : List Char} (h : nextStepsFull cs = true) :
    ∀ x ∈ cs, isSpaceChar x = true ∨
      charLower x ∈ ['n', 'e', 'x', 't', 's', 'p'] := by
  unfold nextStepsFull at h
  split at h
  · rename_i r1 hm1
    split at h
    · rename_i r2 hm2
      intro x hx
      rcases matchCI_decomp _ _ _ hm1 with ⟨pre1, hsplit1, hmap1⟩
      rcases matchCI_decomp _ _ _ hm2 with ⟨pre2, hsplit2, hmap2⟩
      have hcs : cs.takeWhile isSpaceChar ++ (pre1 ++ r1) = cs := by
        rw [← hsplit1, List.takeWhile_append_dropWhile]
      have hr1 : r1.takeWhile isSpaceChar ++ (pre2 ++ r2) = r1 := by
        rw [← hsplit2, List.takeWhile_append_dropWhile]
      rw [← hcs] at hx
      rw [List.mem_append] at hx
      rcases hx with hx | hx
      · exact Or.inl (List.mem_takeWhile_imp hx)
      · rw [List.mem_append] at hx
        rcases hx with hx | hx
        · refine Or.inr ?_
          have : charLower x ∈ pre1.map charLower := List.mem_map_of_mem _ hx
          rw [hmap1] at this
          exact mem_of_sub_next this
        · rw [← hr1, List.mem_append] at hx
          rcases hx with hx | hx
          · exact Or.inl (List.mem_takeWhile_imp hx)
          · rw [List.mem_append] at hx
            rcases hx with hx | hx
            · refine Or.inr ?_
              have : charLower x ∈ pre2.map charLower := List.mem_map_of_mem _ hx
              rw [hmap2] at this
              exact mem_of_sub_steps this
            · exact Or.inl (by simpa using List.all_eq_true.1 h x hx)
    · cases h
  · cases h

theorem chars_no_letter {t letters : List Char} {c : Char}
    (hch : ∀ x ∈ t, isSpaceChar x = true ∨ charLower x ∈ letters)
    (hc1 : isSpaceChar c = false) (hc2 : c ∉ letters) :
    ∀ x ∈ t, charLower x ≠ c := by
  intro x hx hlx
  rcases hch x hx with h | h
  · have hsl := isSpaceChar_charLower h
    rw [hsl] at hlx
    subst hlx
    rw [h] at hc1
    cases hc1
  · rw [hlx] at h
    exact hc2 h

/-! ### Cross-exclusion of the three recognised heading patterns -/

theorem memSearch_norm_false_of_pray {t : List Char} (hp : prayFull t = true) :
    memSearch (normChars t) = false := by
  by_contra h
  rw [Bool.not_eq_false] at h
  rcases memSearch_has_z h with ⟨x, hx, hlx⟩
  rcases mem_normChars hx with rfl | hx2
  · exact absurd hlx (by decide)
  · exact chars_no_letter (prayFull_chars hp) (by decide) (by decide) x hx2 hlx

theorem memSearch_norm_false_of_next {t : List Char}
    (hn : nextStepsFull t = true) : memSearch (normChars t) = false := by
  by_contra h
  rw [Bool.not_eq_false] at h
  rcases memSearch_has_z h with ⟨x, hx, hlx⟩
  rcases mem_normChars hx with rfl | hx2
  · exact absurd hlx (by decide)
  · exact chars_no_letter (nextStepsFull_chars hn) (by decide) (by decide) x
      hx2 hlx

theorem prayFull_norm_false_of_mem {t : List Char} (hm : memSearch t = true) :
    prayFull (normChars t) = false := by
  by_contra h
  rw [Bool.not_eq_false] at h
  rcases memSearch_has_z hm with ⟨x, hx, hlx⟩
  have hxs : isSpaceChar x = false := not_space_of_charLower hlx (by decide)
  have hxn : x ∈ normChars t := mem_normChars_of_not hx hxs
  exact chars_no_letter (prayFull_chars h) (by decide) (by decide) x hxn hlx

theorem prayFull_norm_false_of_next {t : List Char}
    (hn : nextStepsFull t = true) : prayFull (normChars t) = false := by
  by_contra h
  rw [Bool.not_eq_false] at h
  rcases nextStepsFull_has_x hn with ⟨x, hx, hlx⟩
  have hxs : isSpaceChar x = false := not_space_of_charLower hlx (by decide)
  have hxn : x ∈ normChars t := mem_normChars_of_not hx hxs
  exact chars_no_letter (prayFull_chars h) (by decide) (by decide) x hxn hlx

theorem nextFull_norm_false_of_mem {t : List Char} (hm : memSearch t = true) :
    nextStepsFull (normChars t) = false := by
  by_contra h
  rw [Bool.not_eq_false] at h
  rcases memSearch_has_z hm with ⟨x, hx, hlx⟩
  have hxs : isSpaceChar x = false := not_space_of_charLower hlx (by decide)
  have hxn : x ∈ normChars t := mem_normChars_of_not hx hxs
  exact chars_no_letter (nextStepsFull_chars h) (by decide) (by decide) x hxn
    hlx

theorem nextFull_norm_false_of_pray {t : List Char} (hp : prayFull t = true) :
    nextStepsFull (normChars t) = false := by
  by_contra h
  rw [Bool.not_eq_false] at h
  rcases nextStepsFull_has_x h with ⟨x, hx, hlx⟩
  rcases mem_normChars hx with rfl | hx2
  · exact absurd hlx (by decide)
  · exact chars_no_letter (prayFull_chars hp) (by decide) (by decide) x hx2
      hlx

/-! ### Counting sections -/

theorem mem_reduceOption_three {s : Sec} {o1 o2 o3 : Option Sec}
    (h : s ∈ [o1, o2, o3].reduceOption) :
    o1 = some s ∨ o2 = some s ∨ o3 = some s := by
  cases o1 <;> cases o2 <;> cases o3 <;>
    simp_all [List.reduceOption] <;> tauto

theorem countP_reduceOption_le_one (P : Sec → Bool) (o1 o2 o3 : Option Sec)
    (h2 : ∀ s, o2 = some s → P s = false)
    (h3 : ∀ s, o3 = some s → P s = false) :
    [o1, o2, o3].reduceOption.countP P ≤ 1 := by
  cases o1 <;> cases o2 <;> cases o3 <;>
    simp_all [List.reduceOption, List.countP_cons, List.countP_nil] <;>
    split <;> omega

theorem countP_reduceOption_le_one₂ (P : Sec → Bool) (o1 o2 o3 : Option Sec)
    (h1 : ∀ s, o1 = some s → P s = false)
    (h3 : ∀ s, o3 = some s → P s = false) :
    [o1, o2, o3].reduceOption.countP P ≤ 1 := by
  cases o1 <;> cases o2 <;> cases o3 <;>
    simp_all [List.reduceOption, List.countP_cons, List.countP_nil] <;>
    split <;> omega

theorem countP_reduceOption_le_one₃ (P : Sec → Bool) (o1 o2 o3 : Option Sec)
    (h1 : ∀ s, o1 = some s → P s = false)
    (h2 : ∀ s, o2 = some s → P s = false) :
    [o1, o2, o3].reduceOption.countP P ≤ 1 := by
  cases o1 <;> cases o2 <;> cases o3 <;>
    simp_all [List.reduceOption, List.countP_cons, List.countP_nil] <;>
    split <;> omega

/-! ## Claim C8 -/

/-- Counterexample to C8: the HTML parser keeps a heading's own casing as
the section title — an all-caps "MEMORIZATION CHALLENGE" heading is *not*
case-normalised to the template form. -/
theorem parse_html_title_case_cex :
    (parse_html_guide
      [⟨"h2", "MEMORIZATION CHALLENGE"⟩,
       ⟨"p", "Hide the word in your heart."⟩]).sections =
      [⟨"MEMORIZATION CHALLENGE", "Hide the word in your heart."⟩] ∧
    ("MEMORIZATION CHALLENGE" : String) ≠ "Memorization Challenge" :=
  ⟨by rfl, by decide⟩

theorem dropWhile_append_single {p : Char → Bool} {c : Char}
    (hc : p c = false) :
    ∀ xs : List Char, ∃ ys, (xs ++ [c]).dropWhile p = ys ++ [c] := by
  intro xs
  induction xs with
  | nil =>
    exact ⟨[], by rw [List.nil_append, List.dropWhile_cons_of_neg (by simp [hc])]⟩
  | cons a t ih =>
    by_cases hpa : p a = true
    · rcases ih with ⟨ys, hys⟩
      exact ⟨ys, by rw [List.cons_append, List.dropWhile_cons_of_pos hpa, hys]⟩
    · refine ⟨a :: t, ?_⟩
      rw [List.cons_append, List.dropWhile_cons_of_neg (by simpa using hpa)]

theorem normChars_getLast?_not {l : List Char} {c : Char}
    (h : (normChars l).getLast? = some c) : isSpaceChar c = false :=
  stripList_getLast?_not h

/-- `normChars` keeps a non-whitespace head character in place. -/
theorem norm_cons_head {c : Char} (hc : isSpaceChar c = false)
    (t : List Char) : ∃ t2, normChars (c :: t) = c :: t2 := by
  have hfix : fixNbsp c = c := by
    unfold fixNbsp
    rw [if_neg ?_]
    intro hcon
    subst hcon
    exact absurd hc (by decide)
  have hcol : collapseWS ((c :: t).map fixNbsp) =
      c :: collapseWS (t.map fixNbsp) := by
    rw [List.map_cons, hfix, collapseWS]
    simp [hc]
  unfold normChars stripList
  rw [hcol, List.dropWhile_cons_of_neg (by simp [hc])]
  rcases dropWhile_append_single (p := isSpaceChar) hc
    ((collapseWS (t.map fixNbsp)).reverse) with ⟨ys, hys⟩
  refine ⟨ys.reverse, ?_⟩
  rw [show (c :: collapseWS (t.map fixNbsp)).reverse =
    (collapseWS (t.map fixNbsp)).reverse ++ [c] from by simp, hys]
  simp

/-- The trailing-bullet strip of `grab_sec` keeps a normalised non-empty
body non-empty. -/
theorem stripLeadingPdfBullet_ne_nil {c : Char} {t2 : List Char}
    (hc : isSpaceChar c = false)
    (hlast : ∀ x, (c :: t2).getLast? = some x → isSpaceChar x = false) :
    stripLeadingPdfBullet (c :: t2) ≠ [] := by
  unfold stripLeadingPdfBullet
  rw [List.dropWhile_cons_of_neg (by simp [hc])]
  cases t2 with
  | nil => simp
  | cons d rest =>
    dsimp only
    split
    · intro hcon
      rw [List.dropWhile_eq_nil_iff] at hcon
      rcases getLast?_of_ne_nil (l := d :: rest) (by simp) with ⟨x, hx⟩
      have hxmem := getLast?_mem' hx
      have hgl : (c :: d :: rest).getLast? = some x := by
        rw [List.getLast?_cons_cons]
        exact hx
      have hxns := hlast x hgl
      rw [hcon x hxmem] at hxns
      cases hxns
    · simp

theorem grab_sec_some {name raw : List Char} {s : Sec}
    (h : grab_sec name raw = some s) :
    s.title = (⟨capitalizeName name⟩ : String) ∧ s.body ≠ "" := by
  unfold grab_sec at h
  split at h
  · rename_i cap hsearch
    cases h
    refine ⟨rfl, ?_⟩
    rcases grabSecSearch_head raw hsearch with ⟨c, t, rfl, hc⟩
    rcases norm_cons_head hc t with ⟨t2, ht2⟩
    refine string_mk_ne_empty ?_
    rw [ht2]
    refine stripLeadingPdfBullet_ne_nil hc ?_
    intro x hx
    refine normChars_getLast?_not (l := c :: t) ?_
    rw [ht2]
    exact hx
  · cases h

/-- Amended C8: for every input document both parsers emit at most one
section per recognised heading name and every emitted section has a
non-empty body after whitespace normalisation; the PDF parser
case-normalises titles to the template form, while the HTML parser keeps
each matched heading's own text, whitespace-normalised with its original
casing. -/
theorem sections_invariants :
    (∀ doc : List El,
      (parse_html_guide doc).sections.countP
        (fun s => memSearch s.title.data) ≤ 1 ∧
      (parse_html_guide doc).sections.countP
        (fun s => prayFull s.title.data) ≤ 1 ∧
      (parse_html_guide doc).sections.countP
        (fun s => nextStepsFull s.title.data) ≤ 1 ∧
      ∀ s ∈ (parse_html_guide doc).sections, s.body ≠ "" ∧
        ∃ e ∈ doc, isHeadingSelTag e.tag = true ∧
          s.title = (⟨normChars (getTextSpace e)⟩ : String)) ∧
    (∀ raw : String,
      ((parse_pdf_guide raw).sections.map Sec.title).Sublist
        ["Memorization Challenge", "Pray", "Next Steps"] ∧
      ∀ s ∈ (parse_pdf_guide raw).sections, s.body ≠ "") := by
  constructor
  · intro doc
    have hsec : (parse_html_guide doc).sections =
        [grabHtml memSearch doc, grabHtml prayFull doc,
         grabHtml nextStepsFull doc].reduceOption := rfl
    have hp_mem : ∀ s, grabHtml prayFull doc = some s →
        memSearch s.title.data = false := by
      intro s hs
      rcases (grabHtml_some _ _ _ hs).1 with ⟨e, _, _, hpat, htitle⟩
      rw [htitle]
      exact memSearch_norm_false_of_pray hpat
    have hn_mem : ∀ s, grabHtml nextStepsFull doc = some s →
        memSearch s.title.data = false := by
      intro s hs
      rcases (grabHtml_some _ _ _ hs).1 with ⟨e, _, _, hpat, htitle⟩
      rw [htitle]
      exact memSearch_norm_false_of_next hpat
    have hm_pray : ∀ s, grabHtml memSearch doc = some s →
        prayFull s.title.data = false := by
      intro s hs
      rcases (grabHtml_some _ _ _ hs).1 with ⟨e, _, _, hpat, htitle⟩
      rw [htitle]
      exact prayFull_norm_false_of_mem hpat
    have hn_pray : ∀ s, grabHtml nextStepsFull doc = some s →
        prayFull s.title.data = false := by
      intro s hs
      rcases (grabHtml_some _ _ _ hs).1 with ⟨e, _, _, hpat, htitle⟩
      rw [htitle]
      exact prayFull_norm_false_of_next hpat
    have hm_next : ∀ s, grabHtml memSearch doc = some s →
        nextStepsFull s.title.data = false := by
      intro s hs
      rcases (grabHtml_some _ _ _ hs).1 with ⟨e, _, _, hpat, htitle⟩
      rw [htitle]
      exact nextFull_norm_false_of_mem hpat
    have hp_next : ∀ s, grabHtml prayFull doc = some s →
        nextStepsFull s.title.data = false := by
      intro s hs
      rcases (grabHtml_some _ _ _ hs).1 with ⟨e, _, _, hpat, htitle⟩
      rw [htitle]
      exact nextFull_norm_false_of_pray hpat
    refine ⟨?_, ?_, ?_, ?_⟩
    · rw [hsec]
      exact countP_reduceOption_le_one _ _ _ _ hp_mem hn_mem
    · rw [hsec]
      exact countP_reduceOption_le_one₂ _ _ _ _ hm_pray hn_pray
    · rw [hsec]
      exact countP_reduceOption_le_one₃ _ _ _ _ hm_next hp_next
    · intro s hs
      rw [hsec] at hs
      rcases mem_reduceOption_three hs with h | h | h
      · rcases grabHtml_some _ _ _ h with ⟨⟨e, he, hsel, _, htitle⟩, hbody⟩
        exact ⟨hbody, e, he, hsel, htitle⟩
      · rcases grabHtml_some _ _ _ h with ⟨⟨e, he, hsel, _, htitle⟩, hbody⟩
        exact ⟨hbody, e, he, hsel, htitle⟩
      · rcases grabHtml_some _ _ _ h with ⟨⟨e, he, hsel, _, htitle⟩, hbody⟩
        exact ⟨hbody, e, he, hsel, htitle⟩
  · intro raw
    have hsec : (parse_pdf_guide raw).sections =
        [grab_sec "memorization challenge".data (_normalize_pdf_text raw.data),
         grab_sec "pray".data (_normalize_pdf_text raw.data),
         grab_sec "next steps".data
           (_normalize_pdf_text raw.data)].reduceOption := rfl
    constructor
    · rw [hsec]
      rcases h1 : grab_sec "memorization challenge".data
          (_normalize_pdf_text raw.data) with _ | s1 <;>
        rcases h2 : grab_sec "pray".data
            (_normalize_pdf_text raw.data) with _ | s2 <;>
          rcases h3 : grab_sec "next steps".data
              (_normalize_pdf_text raw.data) with _ | s3 <;>
            simp only [List.reduceOption_cons_of_some,
              List.reduceOption_cons_of_none, List.reduceOption_nil,
              List.map_cons, List.map_nil]
      all_goals
        try rw [show s1.title = "Memorization Challenge" from
          (grab_sec_some h1).1]
      all_goals
        try rw [show s2.title = "Pray" from (grab_sec_some h2).1]
      all_goals
        try rw [show s3.title = "Next Steps" from (grab_sec_some h3).1]
      all_goals first
        | exact List.nil_sublist _
        | decide
    · intro s hs
      rw [hsec] at hs
      rcases mem_reduceOption_three hs with h | h | h
      · exact (grab_sec_some h).2
      · exact (grab_sec_some h).2
      · exact (grab_sec_some h).2

/-- Witness for the amended C8: a document and a PDF text carrying all
three sections; the Pray section is exhibited with its non-empty body and
its source heading, and the PDF titles are template-cased. -/
theorem sections_invariants_witness :
    ((⟨"Pray", "Spend ten minutes."⟩ : Sec).body ≠ "" ∧
      ∃ e ∈ docSecEx, isHeadingSelTag e.tag = true ∧
        (⟨"Pray", "Spend ten minutes."⟩ : Sec).title =
          (⟨normChars (getTextSpace e)⟩ : String)) ∧
    (⟨"Pray", "Spend ten minutes."⟩ : Sec).body ≠ "" ∧
    ((parse_pdf_guide rawSecEx).sections.map Sec.title).Sublist
      ["Memorization Challenge", "Pray", "Next Steps"] := by
  have hmemH : (⟨"Pray", "Spend ten minutes."⟩ : Sec) ∈
      (parse_html_guide docSecEx).sections := by
    rw [show (parse_html_guide docSecEx).sections =
      [⟨"Memorization Challenge", "Hebrews 11:1"⟩,
       ⟨"Pray", "Spend ten minutes."⟩,
       ⟨"Next Steps", "Share with a friend."⟩] from rfl]
    simp
  have hmemP : (⟨"Pray", "Spend ten minutes."⟩ : Sec) ∈
      (parse_pdf_guide rawSecEx).sections := by
    rw [show (parse_pdf_guide rawSecEx).sections =
      [⟨"Memorization Challenge", "Hebrews 11:1"⟩,
       ⟨"Pray", "Spend ten minutes."⟩,
       ⟨"Next Steps", "Share with a friend."⟩] from rfl]
    simp
  exact ⟨(sections_invariants.1 docSecEx).2.2.2 _ hmemH,
    ((sections_invariants.2 rawSecEx).2 _ hmemP),
    (sections_invariants.2 rawSecEx).1⟩

end GuideUpdate
